import Mathlib

/-!
Verification of the SQL-to-MongoDB translation engine of the
Traductor-SQL-NOSQL repository (Frontend/src/translatorJS).

The source files embedded here are:
  read.js   (readParser: simple SELECT path and the SIMPLE/AGGREGATE split),
  select.js (selectParser: advanced SELECT path, complexity, optimization),
  update.js (updateParser, and mongoShell: analysis + shell rendering),
  delete.js (deleteParser),
  api.js    (createParser).

Queries are embedded as Lean `String`s (`String.data : List Char`).  The
JavaScript string operations used by the source (`trim`, `toUpperCase`,
`includes`, `startsWith`) and the specific regular expressions it tests are
translated into executable functions over `List Char`.  `toUpperCase` is
modelled on the ASCII range, which is the only range the source's keyword
tests distinguish.  JavaScript regular-expression semantics (leftmost match,
greedy `\s+`/`\w+`, lazy `(.+?)`, word boundary `\b`, the `i` and `g` flags)
are reproduced by the scanning functions below; `.` is modelled as matching
any character (queries are single-line, and no concrete input used in any
theorem contains a newline).
-/

namespace SqlNoSql

/-- JS `toUpperCase` on the ASCII range (all keyword comparisons in the source
are over ASCII). -/
def upChar (c : Char) : Char :=
  if 'a' ≤ c && c ≤ 'z' then Char.ofNat (c.toNat - 32) else c

/-- JS `toUpperCase` of a whole string. -/
def upper (s : String) : String := ⟨s.data.map upChar⟩

/-- JS `toLowerCase` on the ASCII range (used for default aggregation aliases). -/
def lowChar (c : Char) : Char :=
  if 'A' ≤ c && c ≤ 'Z' then Char.ofNat (c.toNat + 32) else c

def lower (s : String) : String := ⟨s.data.map lowChar⟩

/-- The JS `\s` character class, restricted to the characters that occur in
queries. -/
def wsCh (c : Char) : Bool :=
  c == ' ' || c == '\t' || c == '\n' || c == '\r' || c == '\x0b' || c == '\x0c'

def trimCh (cs : List Char) : List Char :=
  ((cs.dropWhile wsCh).reverse.dropWhile wsCh).reverse

/-- JS `String.prototype.trim`. -/
def trim (s : String) : String := ⟨trimCh s.data⟩

/-- `startsL pat cs`: `cs` starts with `pat` (case-sensitive). -/
def startsL : List Char → List Char → Bool
  | [], _ => true
  | _ :: _, [] => false
  | p :: ps, c :: cs => p == c && startsL ps cs

/-- `containsL pat cs`: `pat` occurs as a substring of `cs`
(JS `String.prototype.includes`). -/
def containsL (pat : List Char) : List Char → Bool
  | [] => startsL pat []
  | c :: cs => startsL pat (c :: cs) || containsL pat cs

/-- JS `s.includes(pat)`. -/
def includes (s pat : String) : Bool := containsL pat.data s.data

/-- JS `s.startsWith(pat)`. -/
def startsWith (s pat : String) : Bool := startsL pat.data s.data

/-- `startsCI pat cs`: case-insensitive prefix test; `pat` is given in upper
case (models matching a literal under the regex `i` flag). -/
def startsCI : List Char → List Char → Bool
  | [], _ => true
  | _ :: _, [] => false
  | p :: ps, c :: cs => p == upChar c && startsCI ps cs

/-- Case-insensitive substring occurrence. -/
def containsCI (pat : List Char) : List Char → Bool
  | [] => startsCI pat []
  | c :: cs => startsCI pat (c :: cs) || containsCI pat cs

/-- The JS `\w` word-character class. -/
def wordCh (c : Char) : Bool := c.isAlphanum || c == '_'

/-- The JS `\d` class. -/
def digitCh (c : Char) : Bool := c.isDigit

/-- Regex word boundary `\b` before a word character: the previous character
(if any) is not a word character. -/
def boundary : Option Char → Bool
  | none => true
  | some c => !wordCh c

/-- Scan a string testing a predicate at every suffix, tracking the previous
character (for `\b`); models an unanchored regex `test`. -/
def scanB (f : Option Char → List Char → Bool) : Option Char → List Char → Bool
  | prev, [] => f prev []
  | prev, c :: cs => f prev (c :: cs) || scanB f (some c) cs

/-- Leftmost-match extraction: try `f` at every suffix, return the first
success (models `String.prototype.match` without the `g` flag). -/
def scanFirst {α : Type} (f : Option Char → List Char → Option α) :
    Option Char → List Char → Option α
  | prev, [] => f prev []
  | prev, c :: cs =>
    match f prev (c :: cs) with
    | some a => some a
    | none => scanFirst f (some c) cs

/-- `\s+` (greedy): require at least one whitespace character, consume the
whole run (no backtracking is needed against a non-`\s` continuation). -/
def eatWs1 : List Char → Option (List Char)
  | c :: cs => if wsCh c then some ((c :: cs).dropWhile wsCh) else none
  | [] => none

def eatWsAll (cs : List Char) : List Char := cs.dropWhile wsCh

/-- `\s*\(`. -/
def afterWsParen (cs : List Char) : Bool :=
  match cs.dropWhile wsCh with
  | '(' :: _ => true
  | _ => false

/-- `NAME\s*\(` at the current position (`NAME` given upper case). -/
def aggNameAt (n : String) (cs : List Char) : Bool :=
  startsCI n.data cs && afterWsParen (cs.drop n.length)

/-- read.js `shouldUseAdvancedParser`: the aggregation regex
`/\b(COUNT|SUM|AVG|MAX|MIN|GROUP_CONCAT)\s*\(/i`. -/
def hasAggregationCall (q : String) : Bool :=
  scanB (fun prev cs => boundary prev &&
      (aggNameAt "COUNT" cs || aggNameAt "SUM" cs || aggNameAt "AVG" cs ||
       aggNameAt "MAX" cs || aggNameAt "MIN" cs || aggNameAt "GROUP_CONCAT" cs))
    none q.data

/-- `/\(\s*SELECT\s+/i`: a parenthesized subquery. -/
def subqueryAt (cs : List Char) : Bool :=
  match cs with
  | '(' :: rest =>
    let r := rest.dropWhile wsCh
    startsCI "SELECT".data r &&
      (match (r.drop 6).head? with
       | some c => wsCh c
       | none => false)
  | _ => false

def hasSubqueryRe (q : String) : Bool := scanB (fun _ cs => subqueryAt cs) none q.data

namespace readParser

/-- read.js `shouldUseAdvancedParser`: a SELECT is routed to the advanced
parser iff any of these lexical features is detected. -/
def shouldUseAdvancedParser (q : String) : Bool :=
  hasAggregationCall q || includes (upper q) "GROUP BY" || includes (upper q) "HAVING" ||
  includes (upper q) "JOIN" || includes (upper q) "UNION" ||
  includes (upper q) "SELECT DISTINCT" || hasSubqueryRe q

end readParser

/-- The statement kinds recognized by `mongoShell.detectQueryType`. -/
inductive QType
  | SELECT | INSERT | UPDATE | DELETE | CREATE | DROP | UNKNOWN
deriving DecidableEq

namespace mongoShell

/-- update.js `mongoShell.detectQueryType`. -/
def detectQueryType (q : String) : QType :=
  let u := upper (trim q)
  if startsWith u "SELECT" then .SELECT
  else if startsWith u "INSERT" then .INSERT
  else if startsWith u "UPDATE" then .UPDATE
  else if startsWith u "DELETE" then .DELETE
  else if startsWith u "CREATE" then .CREATE
  else if startsWith u "DROP" then .DROP
  else .UNKNOWN

end mongoShell

/-- The classified statement kinds of the spec's data model. -/
inductive Kind
  | SIMPLE_READ | AGGREGATE_READ | INSERT | UPDATE | DELETE | CREATE | DROP | UNKNOWN
deriving DecidableEq

/-- Modelled from the spec: the statement classifier.  The coordinating module
that maps a statement to a parser is not among the source files (only the
parsers are); per spec section 4.2 the leading keyword classifies write/DDL
statements directly (this is `mongoShell.detectQueryType` from the source) and
a SELECT is `AGGREGATE_READ` exactly when it is routed to the advanced parser,
which in the source is `readParser.shouldUseAdvancedParser`. -/
def classify (q : String) : Kind :=
  match mongoShell.detectQueryType q with
  | .SELECT => if readParser.shouldUseAdvancedParser q then .AGGREGATE_READ else .SIMPLE_READ
  | .INSERT => .INSERT
  | .UPDATE => .UPDATE
  | .DELETE => .DELETE
  | .CREATE => .CREATE
  | .DROP => .DROP
  | .UNKNOWN => .UNKNOWN

/-- The caller's capability set (spec section 3); supplied per request. -/
structure Permissions where
  select : Bool
  insert : Bool
  update : Bool
  delete : Bool
  create_table : Bool
  drop_table : Bool
deriving DecidableEq

/-- The error taxonomy of spec section 7; the source throws plain `Error`s
whose messages identify the category, so each throw site is mapped to the
constructor the spec assigns to it, keeping the source's message. -/
inductive TranslError
  | PermissionError (msg : String)
  | DangerousOperationError (msg : String)
  | SyntaxError (msg : String)
deriving DecidableEq

/-- The command handed to the backend executor: every parser ultimately
forwards a (possibly rewritten) SQL text to `translatorAPI.translateAndExecute`. -/
structure Command where
  sent : String
deriving DecidableEq

instance exceptDecEq {ε α : Type} [DecidableEq ε] [DecidableEq α] : DecidableEq (Except ε α)
  | .ok a, .ok b =>
    if h : a = b then isTrue (by rw [h]) else isFalse (fun he => by cases he; exact h rfl)
  | .ok _, .error _ => isFalse (fun h => by cases h)
  | .error _, .ok _ => isFalse (fun h => by cases h)
  | .error e, .error f =>
    if h : e = f then isTrue (by rw [h]) else isFalse (fun he => by cases he; exact h rfl)

namespace readParser

/-- read.js `validatePermissions`. -/
def validatePermissions (p : Permissions) (_q : String) : Except TranslError Unit :=
  if !p.select then
    .error (.PermissionError "❌ No tienes permisos para realizar consultas SELECT")
  else .ok ()

/-- read.js `validateSyntax` (named `validateStx` here; the gate of this
development reserves the suffix). -/
def validateStx (q : String) : Except TranslError Unit :=
  let u := upper (trim q)
  if !startsWith u "SELECT" then
    .error (.SyntaxError "La consulta debe comenzar con SELECT")
  else if !includes u "FROM" then
    .error (.SyntaxError "Sintaxis incorrecta: SELECT debe incluir FROM")
  else .ok ()

end readParser

namespace selectParser

/-- select.js `validatePermissions`. -/
def validatePermissions (p : Permissions) (_q : String) : Except TranslError Unit :=
  if !p.select then
    .error (.PermissionError "❌ No tienes permisos para realizar consultas SELECT")
  else .ok ()

end selectParser

namespace updateParser

/-- update.js `validatePermissions`: capability gate, then the blast-radius
gate (UPDATE without WHERE). -/
def validatePermissions (p : Permissions) (q : String) : Except TranslError Unit :=
  if !p.update then
    .error (.PermissionError "❌ No tienes permisos para realizar operaciones UPDATE")
  else if !includes (upper (trim q)) "WHERE" then
    .error (.DangerousOperationError "⚠️ UPDATE sin WHERE modificará TODOS los registros. Use WHERE para especificar condiciones.")
  else .ok ()

end updateParser

namespace deleteParser

/-- delete.js `validatePermissions`: DELETE requires the delete capability,
DROP TABLE/COLLECTION the drop_table capability; then DELETE without WHERE is
rejected. -/
def validatePermissions (p : Permissions) (q : String) : Except TranslError Unit :=
  let u := upper (trim q)
  if startsWith u "DELETE" && !p.delete then
    .error (.PermissionError "❌ No tienes permisos para realizar operaciones DELETE")
  else if !startsWith u "DELETE" && (includes u "DROP TABLE" || includes u "DROP COLLECTION") && !p.drop_table then
    .error (.PermissionError "❌ No tienes permisos para eliminar tablas/colecciones")
  else if startsWith u "DELETE" && !includes u "WHERE" then
    .error (.DangerousOperationError "⚠️ DELETE sin WHERE eliminará TODOS los registros. Use WHERE para especificar condiciones.")
  else .ok ()

/-- delete.js `validateSyntax`. -/
def validateStx (q : String) : Except TranslError Unit :=
  let u := upper (trim q)
  if startsWith u "DELETE" then
    if !includes u "FROM" then
      .error (.SyntaxError "Sintaxis incorrecta: DELETE debe incluir FROM")
    else .ok ()
  else if startsWith u "DROP" then
    if !includes u "TABLE" && !includes u "COLLECTION" then
      .error (.SyntaxError "Sintaxis incorrecta: DROP debe especificar TABLE o COLLECTION")
    else .ok ()
  else .ok ()

end deleteParser

namespace createParser

/-- api.js `createParser.validatePermissions`. -/
def validatePermissions (p : Permissions) (q : String) : Except TranslError Unit :=
  let u := upper (trim q)
  if startsWith u "INSERT" && !p.insert then
    .error (.PermissionError "❌ No tienes permisos para realizar operaciones INSERT")
  else if !startsWith u "INSERT" && (includes u "CREATE TABLE" || includes u "CREATE COLLECTION") && !p.create_table then
    .error (.PermissionError "❌ No tienes permisos para crear tablas/colecciones")
  else .ok ()

/-- api.js `createParser.validateSyntax`. -/
def validateStx (q : String) : Except TranslError Unit :=
  let u := upper (trim q)
  if startsWith u "INSERT" then
    if !includes u "INTO" then
      .error (.SyntaxError "Sintaxis incorrecta: INSERT debe incluir INTO")
    else if !includes u "VALUES" && !includes u "SELECT" then
      .error (.SyntaxError "Sintaxis incorrecta: INSERT debe incluir VALUES o SELECT")
    else .ok ()
  else if startsWith u "CREATE" then
    if !includes u "TABLE" && !includes u "COLLECTION" then
      .error (.SyntaxError "Sintaxis incorrecta: CREATE debe especificar TABLE o COLLECTION")
    else .ok ()
  else .ok ()

end createParser

/-- Lazy capture `(.+?)` up to a terminator: the shortest non-empty prefix
whose remaining suffix satisfies `term`.  Returns the capture and the rest. -/
def lazyCapture (term : List Char → Bool) : List Char → Option (List Char × List Char)
  | [] => none
  | c :: cs =>
    if term cs then some ([c], cs)
    else
      match lazyCapture term cs with
      | some (cap, rest) => some (c :: cap, rest)
      | none => none

/-- `\s+(.+?)term` applied just after a keyword: greedy `\s+` (with the one
backtracking step that matters when the remaining text is all whitespace,
in which case the capture is the last whitespace character), then the lazy
capture. -/
def matchAfterKw (term : List Char → Bool) (cs : List Char) : Option (List Char) :=
  match cs with
  | c :: _ =>
    if wsCh c then
      let w := cs.takeWhile wsCh
      let rest := cs.dropWhile wsCh
      match lazyCapture term rest with
      | some (cap, _) => some cap
      | none =>
        if w.length ≥ 2 then
          match lazyCapture term (w.drop (w.length - 1) ++ rest) with
          | some (cap, _) => some cap
          | none => none
        else none
    else none
  | [] => none

def allWs (cs : List Char) : Bool := cs.all wsCh

/-- `\s*;`: optional whitespace then a semicolon. -/
def semiAt (cs : List Char) : Bool :=
  match cs.dropWhile wsCh with
  | d :: _ => d == ';'
  | [] => false

namespace mongoShell

/-- The terminator `(?:\s+GROUP|\s+ORDER|\s+LIMIT|\s*;|\s*$)` of the
where-clause regex in `mongoShell.extractWhereConditions`. -/
def whereTermMS (cs : List Char) : Bool :=
  (match eatWs1 cs with
   | some r => startsCI "GROUP".data r || startsCI "ORDER".data r || startsCI "LIMIT".data r
   | none => false) ||
  semiAt cs ||
  allWs cs

/-- One positional attempt of the where-clause regex: a case-insensitive
`WHERE` literal, then `\s+(.+?)` up to the terminator. -/
def whereF (cs : List Char) : Option String :=
  if startsCI "WHERE".data cs then
    (matchAfterKw whereTermMS (cs.drop 5)).map (fun cap => (⟨cap⟩ : String))
  else none

/-- The capture of `/WHERE\s+(.+?)(?:\s+GROUP|\s+ORDER|\s+LIMIT|\s*;|\s*$)/i`
(leftmost `WHERE` admitting a match). -/
def whereCapture (q : String) : Option String :=
  scanFirst (fun _ cs => whereF cs) none q.data

/-- `conditions.replace(/=/g, ':')`. -/
def repEq (cs : List Char) : List Char := cs.map (fun c => if c == '=' then ':' else c)

/-- `conditions.replace(/'/g, '"')`. -/
def repQuote (cs : List Char) : List Char := cs.map (fun c => if c == '\'' then '"' else c)

/-- `conditions.replace(/AND/gi, ',')`: every case-insensitive occurrence of
`AND` becomes a comma. -/
def repAND : List Char → List Char
  | a :: b :: c :: cs =>
    if upChar a == 'A' && upChar b == 'N' && upChar c == 'D' then ',' :: repAND cs
    else a :: repAND (b :: c :: cs)
  | cs => cs

/-- A case-insensitive `AND` starts at the head of the list (the window test
of `repAND`). -/
def andAt : List Char → Bool
  | a :: b :: c :: _ => upChar a == 'A' && upChar b == 'N' && upChar c == 'D'
  | _ => false

/-- update.js `mongoShell.extractWhereConditions`. -/
def extractWhereConditions (q : String) : String :=
  match whereCapture q with
  | none => "\x7b\x7d"
  | some w =>
    let conditions := repQuote (repAND (repEq (trimCh w.data)))
    match conditions with
    | '\x7b' :: _ => ⟨conditions⟩
    | _ => ⟨'\x7b' :: ' ' :: (conditions ++ [' ', '\x7d'])⟩

/-- `/KW\s+(\w+)/i` at the current position (`KW` given upper case): the word
capture following the keyword. -/
def wordAfterKw (kw : String) (cs : List Char) : Option String :=
  if startsCI kw.data cs then
    match cs.drop kw.length with
    | c :: rest =>
      if wsCh c then
        match (c :: rest).dropWhile wsCh with
        | d :: ds => if wordCh d then some ⟨(d :: ds).takeWhile wordCh⟩ else none
        | [] => none
      else none
    | [] => none
  else none

/-- Leftmost match of `/KW\s+(\w+)/i` over the whole query. -/
def kwWordCapture (kw : String) (q : String) : Option String :=
  scanFirst (fun _ cs => wordAfterKw kw cs) none q.data

/-- update.js `mongoShell.extractTableName`: tries `FROM`, `INTO`, `UPDATE`,
`TABLE` in that order and silently falls back to the placeholder
`'collection'`. -/
def extractTableName (q : String) : String :=
  match kwWordCapture "FROM" q with
  | some t => t
  | none =>
    match kwWordCapture "INTO" q with
    | some t => t
    | none =>
      match kwWordCapture "UPDATE" q with
      | some t => t
      | none =>
        match kwWordCapture "TABLE" q with
        | some t => t
        | none => "collection"

def digitsVal (cs : List Char) : Nat :=
  cs.foldl (fun n c => n * 10 + (c.toNat - 48)) 0

/-- update.js `mongoShell.extractLimit`: `/LIMIT\s+(\d+)/i` with `parseInt`. -/
def extractLimit (q : String) : Option Nat :=
  scanFirst (fun _ cs =>
      if startsCI "LIMIT".data cs then
        let r := cs.drop 5
        match r with
        | c :: _ =>
          if wsCh c then
            match r.dropWhile wsCh with
            | d :: ds => if digitCh d then some (digitsVal ((d :: ds).takeWhile digitCh)) else none
            | [] => none
          else none
        | [] => none
      else none)
    none q.data

end mongoShell

/-- One `ORDER BY` entry as analyzed by `mongoShell.extractOrderBy`. -/
structure OrderField where
  field : String
  direction : String
deriving DecidableEq

/-- One extracted aggregation, as produced by `mongoShell.extractAggregations`
and `selectParser.extractDetailedAggregations` (the `expression` field of the
latter is presentation-only and never read, so it is omitted). -/
structure Agg where
  function : String
  field : String
  aliasName : String
  isCountAll : Bool
deriving DecidableEq

namespace mongoShell

/-- The terminator `(?:\s+LIMIT|\s*;|\s*$)` of the ORDER BY regex. -/
def orderTermMS (cs : List Char) : Bool :=
  (match eatWs1 cs with
   | some r => startsCI "LIMIT".data r
   | none => false) ||
  semiAt cs ||
  allWs cs

def splitComma : List Char → List (List Char)
  | [] => [[]]
  | ',' :: cs => [] :: splitComma cs
  | c :: cs =>
    match splitComma cs with
    | [] => [[c]]
    | p :: ps => (c :: p) :: ps

/-- JS `split(/\s+/)` (with fuel; each step consumes at least one character). -/
def splitWsRunsF : Nat → List Char → List (List Char)
  | 0, cs => [cs]
  | fuel + 1, cs =>
    let piece := cs.takeWhile (fun c => !wsCh c)
    let rest := cs.dropWhile (fun c => !wsCh c)
    match rest with
    | [] => [piece]
    | _ => piece :: splitWsRunsF fuel (rest.dropWhile wsCh)

def splitWsRuns (cs : List Char) : List (List Char) := splitWsRunsF (cs.length + 1) cs

/-- `field.trim().split(/\s+/)`, first part the field, second part `DESC`
(case-insensitively) selecting the descending direction. -/
def parseOrderField (cs : List Char) : OrderField :=
  let t := trimCh cs
  let parts := splitWsRuns t
  let f : String := ⟨parts.headD []⟩
  match parts with
  | _ :: second :: _ =>
    OrderField.mk f (if (⟨second.map upChar⟩ : String) == "DESC" then "DESC" else "ASC")
  | _ => OrderField.mk f "ASC"

/-- update.js `mongoShell.extractOrderBy`:
`/ORDER\s+BY\s+(.+?)(?:\s+LIMIT|\s*;|\s*$)/i`, split on commas. -/
def extractOrderBy (q : String) : Option (List OrderField) :=
  scanFirst (fun _ cs =>
      if startsCI "ORDER".data cs then
        match eatWs1 (cs.drop 5) with
        | some r1 =>
          if startsCI "BY".data r1 then
            match matchAfterKw orderTermMS (r1.drop 2) with
            | some cap => some ((splitComma (trimCh cap)).map parseOrderField)
            | none => none
          else none
        | none => none
      else none)
    none q.data

/-- `\(\s*\*\s*\)` (the argument of `COUNT(*)`). -/
def aggArgStar (cs : List Char) : Option (String × List Char) :=
  match cs with
  | '(' :: r =>
    match eatWsAll r with
    | '*' :: r2 =>
      match eatWsAll r2 with
      | ')' :: r3 => some ("*", r3)
      | _ => none
    | _ => none
  | _ => none

/-- `\(\s*(\w+)\s*\)` (a named argument). -/
def aggArgWord (cs : List Char) : Option (String × List Char) :=
  match cs with
  | '(' :: r =>
    match eatWsAll r with
    | d :: ds =>
      if wordCh d then
        match eatWsAll ((d :: ds).dropWhile wordCh) with
        | ')' :: r3 => some (⟨(d :: ds).takeWhile wordCh⟩, r3)
        | _ => none
      else none
    | [] => none
  | _ => none

/-- The argument alternation `(\*|\w+)` of the COUNT pattern. -/
def aggArgEither (cs : List Char) : Option (String × List Char) :=
  match aggArgStar cs with
  | some r => some r
  | none => aggArgWord cs

/-- The optional `(?:\s+AS\s+(\w+))?` suffix; returns the alias, the last
matched character and the rest. -/
def aggAlias (cs : List Char) : Option (String × Char × List Char) :=
  match cs with
  | c :: _ =>
    if wsCh c then
      let r := eatWsAll cs
      if startsCI "AS".data r then
        let r2 := r.drop 2
        match r2 with
        | d :: _ =>
          if wsCh d then
            match eatWsAll r2 with
            | e :: es =>
              if wordCh e then
                let w := (e :: es).takeWhile wordCh
                some (⟨w⟩, w.getLastD 'x', (e :: es).dropWhile wordCh)
              else none
            | [] => none
          else none
        | [] => none
      else none
    else none
  | [] => none

/-- One match of `\bNAME\s*\(arg\)(?:\s+AS\s+(\w+))?` at the current position;
`both` selects the `(\*|\w+)` alternation used by COUNT.  Returns the field,
the optional alias, the last matched character and the rest. -/
def aggMatchOne (n : String) (both : Bool) (prev : Option Char) (cs : List Char) :
    Option (String × Option String × Char × List Char) :=
  if boundary prev && startsCI n.data cs then
    match (if both then aggArgEither else aggArgWord) (eatWsAll (cs.drop n.length)) with
    | some (f, rest1) =>
      match aggAlias rest1 with
      | some (a, lc, rest2) => some (f, some a, lc, rest2)
      | none => some (f, none, ')', rest1)
    | none => none
  else none

/-- All matches of one aggregation pattern, left to right, resuming after each
match (the `g` flag); fuel decreases by one per examined position. -/
def aggScan (n : String) (both : Bool) : Nat → Option Char → List Char →
    List (String × Option String)
  | 0, _, _ => []
  | _ + 1, _, [] => []
  | fuel + 1, prev, c :: cs =>
    match aggMatchOne n both prev (c :: cs) with
    | some (f, a, lc, rest) => (f, a) :: aggScan n both fuel (some lc) rest
    | none => aggScan n both fuel (some c) cs

/-- Builds the aggregation record: the default alias is
`func.toLowerCase() + "_" + (field === "*" ? "all" : field)`. -/
def buildAgg (fn : String) (fa : String × Option String) : Agg :=
  let field := fa.1
  let al :=
    match fa.2 with
    | some a => a
    | none => lower fn ++ "_" ++ (if field == "*" then "all" else field)
  ⟨fn, field, al, fn == "COUNT" && field == "*"⟩

/-- update.js `mongoShell.extractAggregations`: the five patterns are run in
object-key order (COUNT, SUM, AVG, MAX, MIN), each globally. -/
def extractAggregations (q : String) : List Agg :=
  let l := q.data
  let n := l.length + 1
  ((aggScan "COUNT" true n none l).map (buildAgg "COUNT")) ++
  ((aggScan "SUM" false n none l).map (buildAgg "SUM")) ++
  ((aggScan "AVG" false n none l).map (buildAgg "AVG")) ++
  ((aggScan "MAX" false n none l).map (buildAgg "MAX")) ++
  ((aggScan "MIN" false n none l).map (buildAgg "MIN"))

/-- update.js `mongoShell.detectAggregationFunctions`: the six full-argument
patterns `\bCOUNT\s*\(\s*\*\s*\)`, `\bCOUNT\s*\(\s*\w+\s*\)`,
`\bSUM\s*\(\s*\w+\s*\)`, ... (no GROUP_CONCAT in this copy). -/
def detectAggregationFunctionsMS (q : String) : Bool :=
  scanB (fun prev cs => boundary prev &&
      ((aggMatchOne "COUNT" true prev cs).isSome ||
       (aggMatchOne "SUM" false prev cs).isSome ||
       (aggMatchOne "AVG" false prev cs).isSome ||
       (aggMatchOne "MAX" false prev cs).isSome ||
       (aggMatchOne "MIN" false prev cs).isSome))
    none q.data

/-- The analysis record of update.js `mongoShell.analyzeSQL`. -/
structure MSAnalysis where
  qtype : QType
  table : String
  hasAggregation : Bool
  hasGroupBy : Bool
  hasOrderBy : Bool
  hasWhere : Bool
  hasLimit : Bool
  aggregations : List Agg
  orderBy : Option (List OrderField)
  limit : Option Nat
deriving DecidableEq

/-- update.js `mongoShell.analyzeSQL`. -/
def analyzeSQL (q : String) : MSAnalysis :=
  let u := upper q
  let hasAgg := detectAggregationFunctionsMS q
  let hasOB := includes u "ORDER BY"
  let hasLim := includes u "LIMIT"
  ⟨detectQueryType q, extractTableName q, hasAgg,
   includes u "GROUP BY", hasOB, includes u "WHERE", hasLim,
   if hasAgg then extractAggregations q else [],
   if hasOB then extractOrderBy q else none,
   if hasLim then extractLimit q else none⟩

end mongoShell

/-- An aggregation pipeline stage (the payloads are exactly the strings and
numbers the source stores in the corresponding JS objects). -/
inductive Stage
  | smatch (cond : String)
  | sgroup (fields : List (String × String))
  | sproject (fields : List (String × Nat))
  | ssort (fields : List (String × Int))
  | slimit (n : Nat)
deriving DecidableEq

/-- The canonical position of each stage kind in the fixed pipeline order. -/
def Stage.rank : Stage → Nat
  | .smatch _ => 0
  | .sgroup _ => 1
  | .sproject _ => 2
  | .ssort _ => 3
  | .slimit _ => 4

def Stage.isMatch : Stage → Bool
  | .smatch _ => true
  | _ => false

def Stage.isGroup : Stage → Bool
  | .sgroup _ => true
  | _ => false

def Stage.isProject : Stage → Bool
  | .sproject _ => true
  | _ => false

def Stage.isSort : Stage → Bool
  | .ssort _ => true
  | _ => false

def Stage.isLimit : Stage → Bool
  | .slimit _ => true
  | _ => false

namespace mongoShell

/-- The accumulator value of one aggregation inside `buildGroupStage`; the
if/else-if chain of the source assigns no entry for other function names. -/
def aggGroupEntry (a : Agg) : Option (String × String) :=
  if a.function == "COUNT" then
    if a.isCountAll then some (a.aliasName, "\x7b $sum: 1 \x7d")
    else some (a.aliasName,
      "\x7b $sum: \x7b $cond: [\x7b $ne: [\"$" ++ a.field ++ "\", null] \x7d, 1, 0] \x7d \x7d")
  else if a.function == "SUM" then some (a.aliasName, "\x7b $sum: \"$" ++ a.field ++ "\" \x7d")
  else if a.function == "AVG" then some (a.aliasName, "\x7b $avg: \"$" ++ a.field ++ "\" \x7d")
  else if a.function == "MAX" then some (a.aliasName, "\x7b $max: \"$" ++ a.field ++ "\" \x7d")
  else if a.function == "MIN" then some (a.aliasName, "\x7b $min: \"$" ++ a.field ++ "\" \x7d")
  else none

/-- update.js `mongoShell.buildGroupStage`: `_id` first (`null` without GROUP
BY, the placeholder `"$group_field"` with it), then one entry per aggregation
in extraction order (aliases are assumed distinct, as JS object keys). -/
def buildGroupFields (an : MSAnalysis) : List (String × String) :=
  (if an.hasGroupBy then [("_id", "\"$group_field\"")] else [("_id", "null")]) ++
  an.aggregations.filterMap aggGroupEntry

/-- update.js `mongoShell.buildProjectStage`: `_id: 0` then `alias: 1`. -/
def buildProjectFields (an : MSAnalysis) : List (String × Nat) :=
  ("_id", 0) :: an.aggregations.map (fun a => (a.aliasName, 1))

/-- update.js `mongoShell.buildSortStage` on the array produced by
`extractOrderBy`: `DESC` maps to `-1`, anything else to `1`. -/
def sortFieldsOf (ofs : List OrderField) : List (String × Int) :=
  ofs.map (fun f => (f.field, if f.direction == "DESC" then (-1 : Int) else 1))

/-- update.js `mongoShell.generateAggregationPipeline`, abstracted to the
ordered stage list it pushes: `$match` when the extracted where-conditions are
not the empty document, `$group` and `$project` when an aggregation function
was detected, `$sort` when ORDER BY was found and extracted, `$limit` when
LIMIT was found and its value is truthy (non-null and non-zero). -/
def generateAggregationPipelineStages (q : String) : List Stage :=
  let an := analyzeSQL q
  let wc := extractWhereConditions q
  (if wc != "\x7b\x7d" then [Stage.smatch wc] else []) ++
  (if an.hasAggregation then [Stage.sgroup (buildGroupFields an)] else []) ++
  (if an.hasAggregation then [Stage.sproject (buildProjectFields an)] else []) ++
  (if an.hasOrderBy && an.orderBy.isSome then
    [Stage.ssort (sortFieldsOf (an.orderBy.getD []))] else []) ++
  (if an.hasLimit && an.limit.getD 0 != 0 then [Stage.slimit (an.limit.getD 0)] else [])

/-- The abstract shape of the pushed stage list: one optional stage per slot,
`$group`/`$project` sharing their trigger. -/
def stageListOf (c1 c2 c3 c4 : Bool) (s1 : String) (g : List (String × String))
    (pj : List (String × Nat)) (so : List (String × Int)) (n : Nat) : List Stage :=
  (if c1 then [Stage.smatch s1] else []) ++
  (if c2 then [Stage.sgroup g] else []) ++
  (if c2 then [Stage.sproject pj] else []) ++
  (if c3 then [Stage.ssort so] else []) ++
  (if c4 then [Stage.slimit n] else [])

def joinStr (sep : String) : List String → String
  | [] => ""
  | [x] => x
  | x :: xs => x ++ sep ++ joinStr sep xs

/-- Renders one stage to the exact string the source pushes (without the
two-space indent added at push time). -/
def renderStage : Stage → String
  | .smatch c => "\x7b $match: " ++ c ++ " \x7d"
  | .sgroup fs =>
    "\x7b $group: \x7b\n" ++
    joinStr ",\n" (fs.map (fun kv => "    " ++ kv.1 ++ ": " ++ kv.2)) ++
    "\n  \x7d \x7d"
  | .sproject fs =>
    "\x7b $project: \x7b\n" ++
    joinStr ",\n" (fs.map (fun kv => "    " ++ kv.1 ++ ": " ++ toString kv.2)) ++
    "\n  \x7d \x7d"
  | .ssort fs =>
    "\x7b $sort: \x7b " ++
    joinStr ", " (fs.map (fun kv => "\"" ++ kv.1 ++ "\": " ++ toString kv.2)) ++
    " \x7d \x7d"
  | .slimit n => "\x7b $limit: " ++ toString n ++ " \x7d"

/-- update.js `mongoShell.generateAggregationPipeline`, full rendered text. -/
def generateAggregationPipeline (q : String) : String :=
  let an := analyzeSQL q
  let stages := generateAggregationPipelineStages q
  "// MongoDB Shell equivalente para agregación\n" ++
  "// SQL: " ++ q ++ "\n" ++
  "// Usando pipeline de agregación\n\n" ++
  ("db." ++ an.table ++ ".aggregate([\n" ++
   joinStr ",\n" (stages.map (fun s => "  " ++ renderStage s)) ++
   "\n]);")

/-- update.js `mongoShell.addComments`. -/
def addComments (shell ty q : String) : String :=
  "// MongoDB Shell equivalente para " ++ ty ++ "\n" ++
  "// SQL: " ++ q ++ "\n" ++
  "// Generado automáticamente\n\n" ++ shell

/-- update.js `mongoShell.convertOrderByToSort` on the extracted array. -/
def convertOrderByToSort (ofs : List OrderField) : String :=
  "\x7b " ++
  joinStr ", " (ofs.map (fun f =>
    "\"" ++ f.field ++ "\": " ++ toString (if f.direction == "DESC" then (-1 : Int) else 1))) ++
  " \x7d"

/-- update.js `mongoShell.generateSimpleSelectShell`. -/
def generateSimpleSelectShell (q : String) : String :=
  let an := analyzeSQL q
  let conditions := extractWhereConditions q
  let base := "db." ++ (an.table ++ (".find(" ++
    (if conditions != "\x7b\x7d" then conditions else "\x7b\x7d") ++ ")"))
  let s1 :=
    if an.hasOrderBy && an.orderBy.isSome then
      base ++ ".sort(" ++ convertOrderByToSort (an.orderBy.getD []) ++ ")"
    else base
  let s2 :=
    if an.limit.getD 0 != 0 then s1 ++ ".limit(" ++ toString (an.limit.getD 0) ++ ")"
    else s1
  addComments (s2 ++ ";") "SELECT" q

/-- update.js `mongoShell.generateSelectShellAdvanced`: aggregation or GROUP
BY selects the pipeline form, otherwise the simple `find` form. -/
def generateSelectShellAdvanced (q : String) : String :=
  let an := analyzeSQL q
  if an.hasAggregation || an.hasGroupBy then generateAggregationPipeline q
  else generateSimpleSelectShell q

/-- update.js `mongoShell.generateInsertShell`. -/
def generateInsertShell (q : String) : String :=
  addComments ("db." ++ (extractTableName q ++
    (".insertOne(\x7b\n  // Documento basado en: " ++ q ++
     "\n  // Ajustar campos según estructura real\n\x7d);"))) "INSERT" q

/-- update.js `mongoShell.generateUpdateShell`. -/
def generateUpdateShell (q : String) : String :=
  addComments ("db." ++ (extractTableName q ++
    (".updateMany(\n  " ++ extractWhereConditions q ++
     ",\n  \x7b\n    $set: \x7b\n      // Campos a actualizar según SET clause\n    \x7d\n  \x7d\n);")))
    "UPDATE" q

/-- update.js `mongoShell.generateDeleteShell`. -/
def generateDeleteShell (q : String) : String :=
  let conditions := extractWhereConditions q
  let shell := "db." ++ (extractTableName q ++ (".deleteMany(" ++ conditions ++ ");"))
  addComments
    (if conditions == "\x7b\x7d" then
      "// ⚠️ PELIGRO: Elimina TODOS los documentos\n" ++ shell
     else shell) "DELETE" q

/-- update.js `mongoShell.generateCreateShell`. -/
def generateCreateShell (q : String) : String :=
  addComments ("// En MongoDB, las colecciones se crean automáticamente\ndb." ++
    (extractTableName q ++ (".insertOne(\x7b\n  // Primer documento de ejemplo\n\x7d);")))
    "CREATE" q

/-- update.js `mongoShell.generateDropShell`. -/
def generateDropShell (q : String) : String :=
  addComments ("// ⚠️ PELIGRO: Elimina toda la colección\ndb." ++
    (extractTableName q ++ ".drop();")) "DROP" q

/-- update.js `mongoShell.generateLocalAdvanced`: the local shell renderer
(`render` of the spec's interface; the backend path is network I/O and out of
scope per spec section 1). -/
def generateLocalAdvanced (q : String) : String :=
  match detectQueryType q with
  | .SELECT => generateSelectShellAdvanced q
  | .INSERT => generateInsertShell q
  | .UPDATE => generateUpdateShell q
  | .DELETE => generateDeleteShell q
  | .CREATE => generateCreateShell q
  | .DROP => generateDropShell q
  | .UNKNOWN => "// Consulta SQL no reconocida:\n// " ++ q

end mongoShell

/-- `\bNAME\b` at the current position. -/
def wordBAt (pat : String) (prev : Option Char) (cs : List Char) : Bool :=
  boundary prev && startsCI pat.data cs &&
  (match (cs.drop pat.length).head? with
   | some c => !wordCh c
   | none => true)

/-- `/\bNAME\b/i` over the whole query. -/
def hasWordRe (pat : String) (q : String) : Bool := scanB (wordBAt pat) none q.data

/-- `\bA\s+B\b` at the current position. -/
def kw2At (a b : String) (prev : Option Char) (cs : List Char) : Bool :=
  boundary prev && startsCI a.data cs &&
  (match eatWs1 (cs.drop a.length) with
   | some r => startsCI b.data r &&
      (match (r.drop b.length).head? with
       | some c => !wordCh c
       | none => true)
   | none => false)

/-- `/\bA\s+B\b/i` over the whole query (GROUP BY, ORDER BY, SELECT DISTINCT). -/
def hasKw2Re (a b : String) (q : String) : Bool := scanB (kw2At a b) none q.data

/-- `/\s+JOIN\s+/i`. -/
def joinAt (cs : List Char) : Bool :=
  match cs with
  | c :: _ =>
    wsCh c &&
    (let r := cs.dropWhile wsCh
     startsCI "JOIN".data r &&
      (match (r.drop 4).head? with
       | some d => wsCh d
       | none => false))
  | [] => false

def hasJoinRe (q : String) : Bool := scanB (fun _ cs => joinAt cs) none q.data

/-- `/\bOVER\s*\(/i` (window functions). -/
def hasOverRe (q : String) : Bool :=
  scanB (fun prev cs => boundary prev && aggNameAt "OVER" cs) none q.data

namespace selectParser

/-- select.js `detectAggregationFunctions`: the full-argument patterns of the
mongoShell copy plus `\bGROUP_CONCAT\s*\(`. -/
def detectAggregationFunctions (q : String) : Bool :=
  scanB (fun prev cs => boundary prev &&
      ((mongoShell.aggMatchOne "COUNT" true prev cs).isSome ||
       (mongoShell.aggMatchOne "SUM" false prev cs).isSome ||
       (mongoShell.aggMatchOne "AVG" false prev cs).isSome ||
       (mongoShell.aggMatchOne "MAX" false prev cs).isSome ||
       (mongoShell.aggMatchOne "MIN" false prev cs).isSome ||
       aggNameAt "GROUP_CONCAT" cs))
    none q.data

/-- select.js `extractDetailedAggregations`: the mongoShell extraction plus the
GROUP_CONCAT pattern, in object-key order. -/
def extractDetailedAggregations (q : String) : List Agg :=
  let l := q.data
  let n := l.length + 1
  mongoShell.extractAggregations q ++
  ((mongoShell.aggScan "GROUP_CONCAT" false n none l).map (mongoShell.buildAgg "GROUP_CONCAT"))

/-- The feature record of select.js `deepAnalyze` (the fields that drive
behavior). -/
structure Features where
  hasJoin : Bool
  hasSubquery : Bool
  hasAggregation : Bool
  hasGroupBy : Bool
  hasHaving : Bool
  hasOrderBy : Bool
  hasWindow : Bool
  hasUnion : Bool
  hasDistinct : Bool
deriving DecidableEq

/-- select.js `deepAnalyze`, restricted to its feature detection. -/
def deepFeatures (q : String) : Features :=
  ⟨hasJoinRe q, hasSubqueryRe q, detectAggregationFunctions q,
   hasKw2Re "GROUP" "BY" q, hasWordRe "HAVING" q, hasKw2Re "ORDER" "BY" q,
   hasOverRe q, hasWordRe "UNION" q, hasKw2Re "SELECT" "DISTINCT" q⟩

/-- The numeric score summed by select.js `calculateComplexity`. -/
def complexityScore (f : Features) : Nat :=
  (if f.hasJoin then 2 else 0) + (if f.hasSubquery then 3 else 0) +
  (if f.hasAggregation then 1 else 0) + (if f.hasGroupBy then 2 else 0) +
  (if f.hasHaving then 2 else 0) + (if f.hasOrderBy then 1 else 0) +
  (if f.hasDistinct then 1 else 0) + (if f.hasWindow then 4 else 0) +
  (if f.hasUnion then 2 else 0)

/-- select.js `calculateComplexity`. -/
def calculateComplexity (f : Features) : String :=
  if complexityScore f == 0 then "simple"
  else if complexityScore f ≤ 3 then "moderate"
  else if complexityScore f ≤ 6 then "complex"
  else "very_complex"

/-- select.js `optimizeAdvancedQuery`: appends a safety LIMIT to a
`very_complex` query that has no `\bLIMIT\b`. -/
def optimizeAdvancedQuery (q : String) : String :=
  if calculateComplexity (deepFeatures q) == "very_complex" && !hasWordRe "LIMIT" q then
    q ++ " LIMIT 500"
  else q

/-- The query text select.js `execute` forwards to
`translatorAPI.executeSelect`: aggregation queries go through unmodified
(`executeAggregationQuery`), everything else after `optimizeAdvancedQuery`. -/
def executeSent (q : String) : String :=
  if (deepFeatures q).hasAggregation then q else optimizeAdvancedQuery q

/-- select.js `execute`, as the command sent to the backend; this path
performs no syntax validation and never raises. -/
def run (q : String) : Except TranslError Command := .ok ⟨executeSent q⟩

end selectParser

/-- Split on `/\s+AND\s+|\s+OR\s+/i` (used by the `parseWhereConditions` of
read.js, update.js and delete.js): a separator is one-or-more whitespace, the
word AND or OR case-insensitively, one-or-more whitespace. -/
def sepAndOrAt (cs : List Char) : Option (List Char) :=
  match cs with
  | c :: _ =>
    if wsCh c then
      let r := eatWsAll cs
      if startsCI "AND".data r then eatWs1 (r.drop 3)
      else if startsCI "OR".data r then eatWs1 (r.drop 2)
      else none
    else none
  | [] => none

def splitAndOrF : Nat → List Char → List Char → List String
  | 0, acc, _ => [⟨acc.reverse⟩]
  | _ + 1, acc, [] => [⟨acc.reverse⟩]
  | fuel + 1, acc, c :: cs =>
    match sepAndOrAt (c :: cs) with
    | some rest => (⟨acc.reverse⟩ : String) :: splitAndOrF fuel [] rest
    | none => splitAndOrF fuel (c :: acc) cs

def splitAndOr (cs : List Char) : List String := splitAndOrF (cs.length + 1) [] cs

/-- read.js/update.js `parseWhereConditions`: split on AND/OR, trim each
piece, drop empty pieces. -/
def parseWhereConditions (w : String) : List String :=
  ((splitAndOr w.data).map trim).filter (fun s => s != "")

namespace readParser

/-- The terminator `(?:\s+ORDER|\s+LIMIT|$)` of the where-clause regex used by
read.js `analyzeSimpleQuery` and update.js `analyzeQuery`. -/
def whereTermRU (cs : List Char) : Bool :=
  (match eatWs1 cs with
   | some r => startsCI "ORDER".data r || startsCI "LIMIT".data r
   | none => false) ||
  cs.isEmpty

/-- `/WHERE\s+(.+?)(?:\s+ORDER|\s+LIMIT|$)/i`. -/
def whereCaptureRU (q : String) : Option String :=
  scanFirst (fun _ cs =>
      if startsCI "WHERE".data cs then
        (matchAfterKw whereTermRU (cs.drop 5)).map (fun cap => (⟨cap⟩ : String))
      else none)
    none q.data

/-- The lazy capture of `/SELECT\s+(.*?)\s+FROM/i`: zero-or-more characters up
to whitespace followed by FROM. -/
def selectFieldsTerm (cs : List Char) : Bool :=
  match eatWs1 cs with
  | some r => startsCI "FROM".data r
  | none => false

/-- `(.*?)` variant of the lazy capture: the empty capture is tried first. -/
def lazyCapture0 (term : List Char → Bool) (cs : List Char) : Option (List Char) :=
  if term cs then some []
  else (lazyCapture term cs).map (fun p => p.1)

def selectFieldsCapture (q : String) : Option String :=
  scanFirst (fun _ cs =>
      if startsCI "SELECT".data cs then
        match eatWs1 (cs.drop 6) with
        | some r => (lazyCapture0 selectFieldsTerm r).map (fun cap => (⟨cap⟩ : String))
        | none => none
      else none)
    none q.data

/-- The analysis record of read.js `analyzeSimpleQuery` (the console-only
fields are omitted). -/
structure SimpleAnalysis where
  table : Option String
  fields : List String
  hasWhere : Bool
  hasOrderBy : Bool
  hasLimit : Bool
  limit : Option Nat
  conditions : List String
deriving DecidableEq

/-- read.js `analyzeSimpleQuery`. -/
def analyzeSimpleQuery (q : String) : SimpleAnalysis :=
  let u := upper (trim q)
  let hasW := includes u "WHERE"
  let hasL := includes u "LIMIT"
  ⟨mongoShell.kwWordCapture "FROM" q,
   (match selectFieldsCapture q with
    | some fs => if fs == "*" then ["*"] else (mongoShell.splitComma fs.data).map (fun p => trim ⟨p⟩)
    | none => []),
   hasW, includes u "ORDER BY", hasL,
   if hasL then mongoShell.extractLimit q else none,
   if hasW then
     match whereCaptureRU q with
     | some w => parseWhereConditions w
     | none => []
   else []⟩

/-- read.js `execute` after the advanced-parser check: syntax validation, then
the original query is sent to the backend. -/
def run (q : String) : Except TranslError Command :=
  match validateStx q with
  | .error e => .error e
  | .ok _ => .ok ⟨q⟩

end readParser

namespace updateParser

/-- The regex `/UPDATE\s+\w+\s+SET\s+.+/i` of update.js `validateSyntax`. -/
def basicPatternAt (cs : List Char) : Bool :=
  if startsCI "UPDATE".data cs then
    match eatWs1 (cs.drop 6) with
    | some r1 =>
      (match r1 with
       | d :: _ => wordCh d
       | [] => false) &&
      (match eatWs1 (r1.dropWhile wordCh) with
       | some r3 =>
         startsCI "SET".data r3 &&
         (match eatWs1 (r3.drop 3) with
          | some (c :: _) => c != '\n'
          | _ => false)
       | none => false)
    | none => false
  else false

def basicPattern (q : String) : Bool := scanB (fun _ cs => basicPatternAt cs) none q.data

/-- update.js `validateSyntax` (named `validateStx` here; the gate of this
development reserves the suffix). -/
def validateStx (q : String) : Except TranslError Unit :=
  let u := upper (trim q)
  if !startsWith u "UPDATE" then
    .error (.SyntaxError "La consulta debe comenzar con UPDATE")
  else if !includes u "SET" then
    .error (.SyntaxError "Sintaxis incorrecta: UPDATE debe incluir SET")
  else if !basicPattern q then
    .error (.SyntaxError "Sintaxis incorrecta: Estructura UPDATE inválida")
  else .ok ()

/-- The lazy capture of `/SET\s+(.*?)(?:\s+WHERE|$)/i`. -/
def setTerm (cs : List Char) : Bool :=
  (match eatWs1 cs with
   | some r => startsCI "WHERE".data r
   | none => false) ||
  cs.isEmpty

def setCapture (q : String) : Option String :=
  scanFirst (fun _ cs =>
      if startsCI "SET".data cs then
        match eatWs1 (cs.drop 3) with
        | some r => (readParser.lazyCapture0 setTerm r).map (fun cap => (⟨cap⟩ : String))
        | none => none
      else none)
    none q.data

/-- `update.trim().match(/(\w+)\s*=/)`: the first word followed by optional
whitespace and `=`. -/
def fieldOfSetPiece (piece : String) : String :=
  match scanFirst (fun _ cs =>
      match cs with
      | d :: ds =>
        if wordCh d then
          match ((d :: ds).dropWhile wordCh).dropWhile wsCh with
          | '=' :: _ => some (⟨(d :: ds).takeWhile wordCh⟩ : String)
          | _ => none
        else none
      | [] => none)
    none (trim piece).data with
  | some f => f
  | none => "unknown"

/-- The analysis record of update.js `analyzeQuery` (console-only fields
omitted; `warning` is never read by control flow). -/
structure UpdateAnalysis where
  table : Option String
  fields : List String
  hasWhere : Bool
  conditions : List String
  estimatedImpact : String
  isDangerous : Bool
  setClause : Option String
  whereClause : Option String
deriving DecidableEq

/-- update.js `analyzeQuery`. -/
def analyzeQuery (q : String) : UpdateAnalysis :=
  let u := upper (trim q)
  let hasW := includes u "WHERE"
  let setC := (setCapture q).map trim
  let fields :=
    match setC with
    | some sc => (mongoShell.splitComma sc.data).map (fun p => fieldOfSetPiece ⟨p⟩)
    | none => []
  let whereC := if hasW then (readParser.whereCaptureRU q).map trim else none
  let conds :=
    match whereC with
    | some w => parseWhereConditions w
    | none => []
  let dangerous := (!hasW) || (hasW && conds.isEmpty)
  ⟨mongoShell.kwWordCapture "UPDATE" q, fields, hasW, conds,
   if hasW then "filtered_records" else "all_records",
   dangerous, setC, whereC⟩

/-- update.js `performSecurityChecks`: the only throwing branch. -/
def performSecurityChecks (a : UpdateAnalysis) : Except TranslError Unit :=
  if a.isDangerous && a.estimatedImpact == "all_records" then
    .error (.DangerousOperationError "🚨 Operación peligrosa: UPDATE sin WHERE modificará TODOS los registros")
  else .ok ()

/-- update.js `execute` (after the permission gate): syntax validation,
analysis, security checks, then the original query is sent. -/
def run (q : String) : Except TranslError Command :=
  match validateStx q with
  | .error e => .error e
  | .ok _ =>
    match performSecurityChecks (analyzeQuery q) with
    | .error e => .error e
    | .ok _ => .ok ⟨q⟩

end updateParser

namespace deleteParser

/-- The terminator `(?:ORDER|LIMIT|$)` (no whitespace requirement) of the
where-clause regex in delete.js `analyzeQuery`. -/
def whereTermD (cs : List Char) : Bool :=
  startsCI "ORDER".data cs || startsCI "LIMIT".data cs || cs.isEmpty

def whereCaptureD (q : String) : Option String :=
  scanFirst (fun _ cs =>
      if startsCI "WHERE".data cs then
        (matchAfterKw whereTermD (cs.drop 5)).map (fun cap => (⟨cap⟩ : String))
      else none)
    none q.data

/-- `/DELETE\s+FROM\s+(\w+)/i` and `/DROP\s+(?:TABLE|COLLECTION)\s+(\w+)/i`. -/
def deleteTableCapture (q : String) : Option String :=
  scanFirst (fun _ cs =>
      if startsCI "DELETE".data cs then
        match eatWs1 (cs.drop 6) with
        | some r => mongoShell.wordAfterKw "FROM" r
        | none => none
      else none)
    none q.data

def dropTableCapture (q : String) : Option String :=
  scanFirst (fun _ cs =>
      if startsCI "DROP".data cs then
        match eatWs1 (cs.drop 4) with
        | some r =>
          if startsCI "TABLE".data r then
            match eatWs1 (r.drop 5) with
            | some (d :: ds) =>
              if wordCh d then some (⟨(d :: ds).takeWhile wordCh⟩ : String) else none
            | _ => none
          else if startsCI "COLLECTION".data r then
            match eatWs1 (r.drop 10) with
            | some (d :: ds) =>
              if wordCh d then some (⟨(d :: ds).takeWhile wordCh⟩ : String) else none
            | _ => none
          else none
        | none => none
      else none)
    none q.data

/-- The analysis record of delete.js `analyzeQuery`. -/
structure DeleteAnalysis where
  dtype : Option String
  table : Option String
  hasWhere : Bool
  conditions : List String
  isDangerous : Bool
  estimatedImpact : String
deriving DecidableEq

/-- delete.js `analyzeQuery` (its condition split applies no per-piece trim
or filter). -/
def analyzeQuery (q : String) : DeleteAnalysis :=
  let u := upper (trim q)
  if startsWith u "DELETE" then
    let hasW := includes u "WHERE"
    ⟨some "DELETE", deleteTableCapture q, hasW,
     (if hasW then
        match whereCaptureD q with
        | some w => splitAndOr (trim w).data
        | none => []
      else []),
     !hasW, if hasW then "filtered_records" else "all_records"⟩
  else if startsWith u "DROP" then
    ⟨some "DROP", dropTableCapture q, false, [], true, "entire_table"⟩
  else
    ⟨none, none, false, [], false, "unknown"⟩

/-- delete.js `execute` (after the permission gate): syntax validation (the
dangerous analysis only warns on this path), then the original query is
sent. -/
def run (q : String) : Except TranslError Command :=
  match validateStx q with
  | .error e => .error e
  | .ok _ => .ok ⟨q⟩

end deleteParser

namespace createParser

/-- api.js `createParser.execute` (after the permission gate). -/
def run (q : String) : Except TranslError Command :=
  match validateStx q with
  | .error e => .error e
  | .ok _ => .ok ⟨q⟩

end createParser

/-- Modelled from the spec: `translate`.  The coordinator that dispatches a
classified statement to its parser is not among the source files; per spec
sections 4.5 and 6 both guard gates run before any command is built or sent,
so each path runs the parser's `validatePermissions` and then its execution
pipeline, and an error result means no command reaches the backend. -/
def translate (p : Permissions) (q : String) : Except TranslError Command :=
  match classify q with
  | .SIMPLE_READ =>
    match readParser.validatePermissions p q with
    | .error e => .error e
    | .ok _ => readParser.run q
  | .AGGREGATE_READ =>
    match selectParser.validatePermissions p q with
    | .error e => .error e
    | .ok _ => selectParser.run q
  | .UPDATE =>
    match updateParser.validatePermissions p q with
    | .error e => .error e
    | .ok _ => updateParser.run q
  | .DELETE =>
    match deleteParser.validatePermissions p q with
    | .error e => .error e
    | .ok _ => deleteParser.run q
  | .DROP =>
    match deleteParser.validatePermissions p q with
    | .error e => .error e
    | .ok _ => deleteParser.run q
  | .INSERT =>
    match createParser.validatePermissions p q with
    | .error e => .error e
    | .ok _ => createParser.run q
  | .CREATE =>
    match createParser.validatePermissions p q with
    | .error e => .error e
    | .ok _ => createParser.run q
  | .UNKNOWN => .error (.SyntaxError "Consulta SQL no reconocida")

/-- The all-true capability set, for concrete instances. -/
def allPerms : Permissions := ⟨true, true, true, true, true, true⟩

/-- The blast-radius error messages (from the sources). -/
def updateDangerMsg : String :=
  "⚠️ UPDATE sin WHERE modificará TODOS los registros. Use WHERE para especificar condiciones."

def deleteDangerMsg : String :=
  "⚠️ DELETE sin WHERE eliminará TODOS los registros. Use WHERE para especificar condiciones."

def selectPermMsg : String := "❌ No tienes permisos para realizar consultas SELECT"

/-- A plain identifier/number token for the where-translation statements:
non-empty, alphanumeric, free of a case-insensitive AND and not starting (case
insensitively) with a terminator keyword of the where-clause regex. -/
def plainTok (s : String) : Bool :=
  !s.data.isEmpty && s.data.all Char.isAlphanum &&
  !containsCI "AND".data s.data &&
  !startsCI "GROUP".data s.data && !startsCI "ORDER".data s.data &&
  !startsCI "LIMIT".data s.data

/-! ## General lemmas about the string model -/

theorem sdata_append (a b : String) : (a ++ b).data = a.data ++ b.data := rfl

theorem classify_eq_update {q : String} (h : classify q = .UPDATE) :
    mongoShell.detectQueryType q = .UPDATE := by
  cases hd : mongoShell.detectQueryType q <;> simp only [classify, hd] at h <;>
    first
      | rfl
      | exact hd
      | (split at h <;> simp at h)
      | simp at h

theorem classify_eq_delete {q : String} (h : classify q = .DELETE) :
    mongoShell.detectQueryType q = .DELETE := by
  cases hd : mongoShell.detectQueryType q <;> simp only [classify, hd] at h <;>
    first
      | rfl
      | exact hd
      | (split at h <;> simp at h)
      | simp at h

theorem classify_eq_insert {q : String} (h : classify q = .INSERT) :
    mongoShell.detectQueryType q = .INSERT := by
  cases hd : mongoShell.detectQueryType q <;> simp only [classify, hd] at h <;>
    first
      | rfl
      | exact hd
      | (split at h <;> simp at h)
      | simp at h

theorem classify_eq_create {q : String} (h : classify q = .CREATE) :
    mongoShell.detectQueryType q = .CREATE := by
  cases hd : mongoShell.detectQueryType q <;> simp only [classify, hd] at h <;>
    first
      | rfl
      | exact hd
      | (split at h <;> simp at h)
      | simp at h

theorem classify_eq_drop {q : String} (h : classify q = .DROP) :
    mongoShell.detectQueryType q = .DROP := by
  cases hd : mongoShell.detectQueryType q <;> simp only [classify, hd] at h <;>
    first
      | rfl
      | exact hd
      | (split at h <;> simp at h)
      | simp at h

theorem classify_eq_simple {q : String} (h : classify q = .SIMPLE_READ) :
    mongoShell.detectQueryType q = .SELECT ∧ readParser.shouldUseAdvancedParser q = false := by
  cases hd : mongoShell.detectQueryType q <;> simp only [classify, hd] at h
  case SELECT =>
    refine ⟨rfl, ?_⟩
    split at h
    · simp at h
    · rename_i hc
      simpa using hc
  all_goals simp at h

theorem classify_eq_agg {q : String} (h : classify q = .AGGREGATE_READ) :
    mongoShell.detectQueryType q = .SELECT ∧ readParser.shouldUseAdvancedParser q = true := by
  cases hd : mongoShell.detectQueryType q <;> simp only [classify, hd] at h
  case SELECT =>
    refine ⟨rfl, ?_⟩
    split at h
    · rename_i hc
      exact hc
    · simp at h
  all_goals simp at h

theorem detect_select {q : String} (h : mongoShell.detectQueryType q = .SELECT) :
    startsWith (upper (trim q)) "SELECT" = true := by
  simp only [mongoShell.detectQueryType] at h
  split_ifs at h with h1 h2 h3 h4 h5 h6 <;> simp_all

theorem detect_update {q : String} (h : mongoShell.detectQueryType q = .UPDATE) :
    startsWith (upper (trim q)) "UPDATE" = true := by
  simp only [mongoShell.detectQueryType] at h
  split_ifs at h with h1 h2 h3 h4 h5 h6 <;> simp_all

theorem detect_delete {q : String} (h : mongoShell.detectQueryType q = .DELETE) :
    startsWith (upper (trim q)) "DELETE" = true := by
  simp only [mongoShell.detectQueryType] at h
  split_ifs at h with h1 h2 h3 h4 h5 h6 <;> simp_all

theorem detect_insert {q : String} (h : mongoShell.detectQueryType q = .INSERT) :
    startsWith (upper (trim q)) "INSERT" = true := by
  simp only [mongoShell.detectQueryType] at h
  split_ifs at h with h1 h2 h3 h4 h5 h6 <;> simp_all

theorem detect_create {q : String} (h : mongoShell.detectQueryType q = .CREATE) :
    startsWith (upper (trim q)) "CREATE" = true ∧
    startsWith (upper (trim q)) "INSERT" = false := by
  simp only [mongoShell.detectQueryType] at h
  split_ifs at h with h1 h2 h3 h4 h5 h6 <;> simp_all

theorem detect_drop {q : String} (h : mongoShell.detectQueryType q = .DROP) :
    startsWith (upper (trim q)) "DROP" = true ∧
    startsWith (upper (trim q)) "DELETE" = false := by
  simp only [mongoShell.detectQueryType] at h
  split_ifs at h with h1 h2 h3 h4 h5 h6 <;> simp_all

/-- With a WHERE clause present, update.js `performSecurityChecks` passes: the
estimated impact is `filtered_records` and the throwing branch requires
`all_records`. -/
theorem updateSecurity_ok_of_where {q : String}
    (hw : includes (upper (trim q)) "WHERE" = true) :
    updateParser.performSecurityChecks (updateParser.analyzeQuery q) = .ok () := by
  unfold updateParser.performSecurityChecks updateParser.analyzeQuery
  simp [hw]

/-- update.js `validateSyntax` only raises SyntaxErrors. -/
theorem updateStx_not_dangerous {q : String} {m : String} :
    updateParser.validateStx q ≠ .error (.DangerousOperationError m) := by
  simp only [updateParser.validateStx]
  split_ifs <;> simp

/-- delete.js `validateSyntax` only raises SyntaxErrors. -/
theorem deleteStx_not_dangerous {q : String} {m : String} :
    deleteParser.validateStx q ≠ .error (.DangerousOperationError m) := by
  simp only [deleteParser.validateStx]
  split_ifs <;> simp

/-- With a WHERE clause present, the UPDATE execution pipeline can no longer
raise a DangerousOperationError. -/
theorem updateRun_not_dangerous {q : String} (hw : includes (upper (trim q)) "WHERE" = true)
    (m : String) : updateParser.run q ≠ .error (.DangerousOperationError m) := by
  unfold updateParser.run
  cases hv : updateParser.validateStx q with
  | error e =>
    intro hcon
    simp only [Except.error.injEq] at hcon
    exact updateStx_not_dangerous (hcon ▸ hv)
  | ok u =>
    rw [updateSecurity_ok_of_where hw]
    simp

/-- The DELETE execution pipeline never raises a DangerousOperationError (the
gate lives in `validatePermissions`). -/
theorem deleteRun_not_dangerous {q m : String} :
    deleteParser.run q ≠ .error (.DangerousOperationError m) := by
  unfold deleteParser.run
  cases hv : deleteParser.validateStx q with
  | error e =>
    intro hcon
    simp only [Except.error.injEq] at hcon
    exact deleteStx_not_dangerous (hcon ▸ hv)
  | ok u => simp

/-- C2: for every input classified SIMPLE_READ or AGGREGATE_READ (every
SELECT), a capability set with `select = false` makes `translate` raise the
PermissionError naming the SELECT capability, regardless of the predicate
content of the query.  An error result means no command reaches the
backend. -/
theorem select_capability_gate (p : Permissions) (q : String)
    (hp : p.select = false)
    (hk : classify q = .SIMPLE_READ ∨ classify q = .AGGREGATE_READ) :
    translate p q = .error (.PermissionError selectPermMsg) := by
  rcases hk with hk | hk <;>
    simp [translate, hk, readParser.validatePermissions, selectParser.validatePermissions, hp,
      selectPermMsg]

/-- Witness for C2 at two concrete inputs, one per read kind. -/
theorem select_capability_gate_witness :
    translate ⟨false, true, true, true, true, true⟩ "SELECT * FROM t" =
      .error (.PermissionError selectPermMsg) ∧
    translate ⟨false, true, true, true, true, true⟩ "SELECT COUNT(*) AS c FROM t" =
      .error (.PermissionError selectPermMsg) :=
  ⟨select_capability_gate _ _ rfl (Or.inl (by decide)),
   select_capability_gate _ _ rfl (Or.inr (by decide))⟩

/-- C1: for every UPDATE and every DELETE statement (with the corresponding
capability present, so the capability gate does not fire first), `translate`
raises the DangerousOperationError if and only if the statement has no WHERE
clause (the source's test: the upper-cased trimmed text does not contain
`WHERE`).  An error result means no command reaches the backend. -/
theorem where_blast_gate (p : Permissions) (q : String) :
    (p.update = true → classify q = .UPDATE →
      ((translate p q = .error (.DangerousOperationError updateDangerMsg)) ↔
        includes (upper (trim q)) "WHERE" = false)) ∧
    (p.delete = true → classify q = .DELETE →
      ((translate p q = .error (.DangerousOperationError deleteDangerMsg)) ↔
        includes (upper (trim q)) "WHERE" = false)) := by
  constructor
  · intro hp hk
    cases hw : includes (upper (trim q)) "WHERE"
    · simp [translate, hk, updateParser.validatePermissions, hp, hw, updateDangerMsg]
    · constructor
      · intro ht
        exfalso
        simp only [translate, hk, updateParser.validatePermissions, hp, hw, Bool.not_true,
          Bool.false_eq_true, if_false, if_neg] at ht
        exact updateRun_not_dangerous hw _ ht
      · intro hcon
        simp at hcon
  · intro hp hk
    have hsd := detect_delete (classify_eq_delete hk)
    cases hw : includes (upper (trim q)) "WHERE"
    · simp [translate, hk, deleteParser.validatePermissions, hp, hw, hsd, deleteDangerMsg]
    · constructor
      · intro ht
        exfalso
        simp only [translate, hk, deleteParser.validatePermissions, hp, hw, hsd, Bool.not_true,
          Bool.and_false, Bool.false_eq_true, if_false, if_neg] at ht
        exact deleteRun_not_dangerous ht
      · intro hcon
        simp at hcon

/-- Witness for C1 at the three concrete statements of the claim. -/
theorem where_blast_gate_witness :
    translate allPerms "UPDATE t SET x = 1" =
      .error (.DangerousOperationError updateDangerMsg) ∧
    translate allPerms "DELETE FROM t" =
      .error (.DangerousOperationError deleteDangerMsg) ∧
    translate allPerms "UPDATE t SET x = 1 WHERE id = 5" =
      .ok ⟨"UPDATE t SET x = 1 WHERE id = 5"⟩ :=
  ⟨((where_blast_gate allPerms "UPDATE t SET x = 1").1 rfl (by decide)).mpr (by decide),
   ((where_blast_gate allPerms "DELETE FROM t").2 rfl (by decide)).mpr (by decide),
   by decide⟩

/-- C3 counterexample: `SELECT A FROM T HAVING B` contains no aggregate
function call, no GROUP BY, no JOIN, no UNION and no DISTINCT, yet
classification yields AGGREGATE_READ rather than SIMPLE_READ: HAVING (like a
parenthesized subquery) routes to the advanced parser although the claim's
SIMPLE_READ condition list omits it. -/
theorem classification_simple_read_cx :
    hasAggregationCall "SELECT A FROM T HAVING B" = false ∧
    includes (upper "SELECT A FROM T HAVING B") "GROUP BY" = false ∧
    includes (upper "SELECT A FROM T HAVING B") "JOIN" = false ∧
    includes (upper "SELECT A FROM T HAVING B") "UNION" = false ∧
    includes (upper "SELECT A FROM T HAVING B") "DISTINCT" = false ∧
    classify "SELECT A FROM T HAVING B" = .AGGREGATE_READ := by decide

/-- C3 amended: for every SELECT, classification yields SIMPLE_READ iff none
of aggregate-function call, GROUP BY, HAVING, JOIN, UNION, SELECT DISTINCT or
parenthesized subquery is detected, and AGGREGATE_READ otherwise. -/
theorem classification_split_amended (q : String)
    (hd : mongoShell.detectQueryType q = .SELECT) :
    (classify q = .SIMPLE_READ ↔
      (hasAggregationCall q = false ∧ includes (upper q) "GROUP BY" = false ∧
       includes (upper q) "HAVING" = false ∧ includes (upper q) "JOIN" = false ∧
       includes (upper q) "UNION" = false ∧ includes (upper q) "SELECT DISTINCT" = false ∧
       hasSubqueryRe q = false)) ∧
    (classify q = .AGGREGATE_READ ↔ ¬classify q = .SIMPLE_READ) := by
  cases hs : readParser.shouldUseAdvancedParser q
  · have hcl : classify q = .SIMPLE_READ := by simp [classify, hd, hs]
    have hconj := hs
    simp only [readParser.shouldUseAdvancedParser, Bool.or_eq_false_iff] at hconj
    refine ⟨iff_of_true hcl ?_, by simp [hcl]⟩
    exact ⟨hconj.1.1.1.1.1.1, hconj.1.1.1.1.1.2, hconj.1.1.1.1.2, hconj.1.1.1.2,
      hconj.1.1.2, hconj.1.2, hconj.2⟩
  · have hcl : classify q = .AGGREGATE_READ := by simp [classify, hd, hs]
    refine ⟨iff_of_false (by simp [hcl]) ?_, by simp [hcl]⟩
    intro hc
    rw [readParser.shouldUseAdvancedParser, hc.1, hc.2.1, hc.2.2.1, hc.2.2.2.1,
      hc.2.2.2.2.1, hc.2.2.2.2.2.1, hc.2.2.2.2.2.2] at hs
    simp at hs

/-- Witness for C3's amended theorem: a plain filtered SELECT is classified
SIMPLE_READ, a HAVING query AGGREGATE_READ. -/
theorem classification_split_amended_witness :
    classify "SELECT name FROM users WHERE age > 18" = Kind.SIMPLE_READ ∧
    classify "SELECT A FROM T HAVING B" = Kind.AGGREGATE_READ :=
  ⟨((classification_split_amended _ (by decide)).1).mpr (by decide),
   ((classification_split_amended _ (by decide)).2).mpr (by decide)⟩

/-- C4 counterexample: `SELECT STATUS FROM T GROUP BY STATUS` is classified
AGGREGATE_READ and rendered through the aggregation pipeline (its analysis
has `hasGroupBy` set), yet the generated pipeline is empty: the supposedly
mandatory `$group` and `$project` stages are absent, because the source emits
them only when an aggregate function is detected. -/
theorem pipeline_mandatory_group_cx :
    classify "SELECT STATUS FROM T GROUP BY STATUS" = .AGGREGATE_READ ∧
    (mongoShell.analyzeSQL "SELECT STATUS FROM T GROUP BY STATUS").hasGroupBy = true ∧
    (mongoShell.analyzeSQL "SELECT STATUS FROM T GROUP BY STATUS").hasAggregation = false ∧
    mongoShell.generateAggregationPipelineStages "SELECT STATUS FROM T GROUP BY STATUS" = [] := by
  decide

/-- The ordering and membership facts for the abstract stage-list shape. -/
theorem stageListOf_shape (c1 c2 c3 c4 : Bool) (s1 : String) (g : List (String × String))
    (pj : List (String × Nat)) (so : List (String × Int)) (n : Nat) :
    List.Sublist ((mongoShell.stageListOf c1 c2 c3 c4 s1 g pj so n).map Stage.rank) [0, 1, 2, 3, 4] ∧
    (mongoShell.stageListOf c1 c2 c3 c4 s1 g pj so n).any Stage.isMatch = c1 ∧
    (mongoShell.stageListOf c1 c2 c3 c4 s1 g pj so n).any Stage.isGroup = c2 ∧
    (mongoShell.stageListOf c1 c2 c3 c4 s1 g pj so n).any Stage.isProject = c2 ∧
    (mongoShell.stageListOf c1 c2 c3 c4 s1 g pj so n).any Stage.isSort = c3 ∧
    (mongoShell.stageListOf c1 c2 c3 c4 s1 g pj so n).any Stage.isLimit = c4 := by
  cases c1 <;> cases c2 <;> cases c3 <;> cases c4 <;>
    simp [mongoShell.stageListOf, Stage.isMatch, Stage.isGroup, Stage.isProject, Stage.isSort,
      Stage.isLimit, Stage.rank] <;>
    decide

/-- C4 amended: the pipeline's stage order is always a subsequence of
`$match, $group, $project, $sort, $limit` (the relative order never changes),
`$match` appears iff the extracted where-conditions are non-empty, `$group`
and `$project` appear iff an aggregate function was detected (not for every
AGGREGATE_READ query), `$sort` iff ORDER BY was found and extracted, and
`$limit` iff LIMIT was found with a truthy value. -/
theorem pipeline_stage_order_amended (q : String) :
    List.Sublist ((mongoShell.generateAggregationPipelineStages q).map Stage.rank)
      [0, 1, 2, 3, 4] ∧
    (mongoShell.generateAggregationPipelineStages q).any Stage.isMatch =
      (mongoShell.extractWhereConditions q != "\x7b\x7d") ∧
    (mongoShell.generateAggregationPipelineStages q).any Stage.isGroup =
      (mongoShell.analyzeSQL q).hasAggregation ∧
    (mongoShell.generateAggregationPipelineStages q).any Stage.isProject =
      (mongoShell.analyzeSQL q).hasAggregation ∧
    (mongoShell.generateAggregationPipelineStages q).any Stage.isSort =
      ((mongoShell.analyzeSQL q).hasOrderBy && (mongoShell.analyzeSQL q).orderBy.isSome) ∧
    (mongoShell.generateAggregationPipelineStages q).any Stage.isLimit =
      ((mongoShell.analyzeSQL q).hasLimit && (mongoShell.analyzeSQL q).limit.getD 0 != 0) := by
  have heq : mongoShell.generateAggregationPipelineStages q =
      mongoShell.stageListOf (mongoShell.extractWhereConditions q != "\x7b\x7d")
        (mongoShell.analyzeSQL q).hasAggregation
        ((mongoShell.analyzeSQL q).hasOrderBy && (mongoShell.analyzeSQL q).orderBy.isSome)
        ((mongoShell.analyzeSQL q).hasLimit && (mongoShell.analyzeSQL q).limit.getD 0 != 0)
        (mongoShell.extractWhereConditions q)
        (mongoShell.buildGroupFields (mongoShell.analyzeSQL q))
        (mongoShell.buildProjectFields (mongoShell.analyzeSQL q))
        (mongoShell.sortFieldsOf ((mongoShell.analyzeSQL q).orderBy.getD []))
        ((mongoShell.analyzeSQL q).limit.getD 0) := rfl
  rw [heq]
  exact stageListOf_shape _ _ _ _ _ _ _ _ _

/-- C5: `SELECT COUNT(*) AS total FROM orders` is classified AGGREGATE_READ,
exactly one aggregation `{COUNT, *, total}` is extracted, and the generated
pipeline is exactly the two stages `$group: {_id: null, total: {$sum: 1}}`
and `$project: {_id: 0, total: 1}`. -/
theorem count_star_total_pipeline :
    classify "SELECT COUNT(*) AS total FROM orders" = .AGGREGATE_READ ∧
    selectParser.extractDetailedAggregations "SELECT COUNT(*) AS total FROM orders" =
      [⟨"COUNT", "*", "total", true⟩] ∧
    mongoShell.generateAggregationPipelineStages "SELECT COUNT(*) AS total FROM orders" =
      [Stage.sgroup [("_id", "null"), ("total", "\x7b $sum: 1 \x7d")],
       Stage.sproject [("_id", 0), ("total", 1)]] := by
  decide

/-- A successful leftmost scan comes from a successful match at some
position. -/
theorem scanFirst_some {α : Type} {f : Option Char → List Char → Option α} :
    ∀ {p : Option Char} {cs : List Char} {a : α}, scanFirst f p cs = some a →
      ∃ p' cs', f p' cs' = some a := by
  intro p cs
  induction cs generalizing p with
  | nil => exact fun h => ⟨p, [], h⟩
  | cons c cs ih =>
    intro a h
    simp only [scanFirst] at h
    cases hf : f p (c :: cs) with
    | some b =>
      rw [hf] at h
      exact ⟨p, c :: cs, by rw [hf]; exact h⟩
    | none =>
      rw [hf] at h
      exact ih h

/-- A successful `/KW\s+(\w+)/i` match captures at least one word
character. -/
theorem wordAfterKw_some_ne {kw : String} {cs : List Char} {t : String}
    (h : mongoShell.wordAfterKw kw cs = some t) : t.data ≠ [] := by
  unfold mongoShell.wordAfterKw at h
  split_ifs at h
  cases hr : cs.drop kw.length with
  | nil => rw [hr] at h; exact absurd h (by simp)
  | cons c rest =>
    rw [hr] at h
    dsimp only at h
    split_ifs at h with hws
    cases hd : (c :: rest).dropWhile wsCh with
    | nil => rw [hd] at h; exact absurd h (by simp)
    | cons d ds =>
      rw [hd] at h
      dsimp only at h
      split_ifs at h with hw
      simp only [Option.some.injEq] at h
      subst h
      simp [List.takeWhile_cons, hw]

theorem kwWordCapture_some_ne {kw q : String} {t : String}
    (h : mongoShell.kwWordCapture kw q = some t) : t.data ≠ [] := by
  obtain ⟨p', cs', hf⟩ := scanFirst_some h
  exact wordAfterKw_some_ne hf

/-- C9 amended: the renderer's extracted table name is always non-empty, but
only because a statement from which no table can be extracted silently
receives the placeholder `collection` instead of failing. -/
theorem table_name_default_amended (q : String) :
    (mongoShell.extractTableName q).data ≠ [] ∧
    ((mongoShell.kwWordCapture "FROM" q = none ∧ mongoShell.kwWordCapture "INTO" q = none ∧
      mongoShell.kwWordCapture "UPDATE" q = none ∧
      mongoShell.kwWordCapture "TABLE" q = none) →
      mongoShell.extractTableName q = "collection") := by
  constructor
  · unfold mongoShell.extractTableName
    cases h1 : mongoShell.kwWordCapture "FROM" q with
    | some t => exact kwWordCapture_some_ne h1
    | none =>
      cases h2 : mongoShell.kwWordCapture "INTO" q with
      | some t => exact kwWordCapture_some_ne h2
      | none =>
        cases h3 : mongoShell.kwWordCapture "UPDATE" q with
        | some t => exact kwWordCapture_some_ne h3
        | none =>
          cases h4 : mongoShell.kwWordCapture "TABLE" q with
          | some t => exact kwWordCapture_some_ne h4
          | none => decide
  · rintro ⟨h1, h2, h3, h4⟩
    simp [mongoShell.extractTableName, h1, h2, h3, h4]

/-- Witness for C9's amended theorem at the tableless statement. -/
theorem table_name_default_amended_witness :
    (mongoShell.extractTableName "SELECT * FROM").data ≠ [] ∧
    mongoShell.extractTableName "SELECT * FROM" = "collection" :=
  ⟨(table_name_default_amended "SELECT * FROM").1,
   (table_name_default_amended "SELECT * FROM").2 (by decide)⟩

/-- C9 counterexample: `SELECT * FROM` has no extractable table name, yet it
parses and translates successfully (the analysis records a null table) and
the renderer silently substitutes the placeholder `collection` instead of
failing. -/
theorem table_name_silent_default_cx :
    mongoShell.extractTableName "SELECT * FROM" = "collection" ∧
    (readParser.analyzeSimpleQuery "SELECT * FROM").table = none ∧
    translate allPerms "SELECT * FROM" = .ok ⟨"SELECT * FROM"⟩ := by
  decide

/-- The `very_complex` tier is exactly a complexity score above 6. -/
theorem very_complex_iff (f : selectParser.Features) :
    (selectParser.calculateComplexity f == "very_complex") = true ↔
      6 < selectParser.complexityScore f := by
  unfold selectParser.calculateComplexity
  split_ifs with h1 h2 h3
  · simp only [beq_iff_eq] at h1
    exact iff_of_false (by decide) (by omega)
  · exact iff_of_false (by decide) (by omega)
  · exact iff_of_false (by decide) (by omega)
  · exact iff_of_true (by decide) (by omega)

/-- C10: select.js forwards every aggregation query unmodified; a
non-aggregation query whose complexity score exceeds 6 (`very_complex`) and
whose text has no `\bLIMIT\b` keyword is silently extended with
` LIMIT 500`; every other non-aggregation query is forwarded verbatim. -/
theorem advanced_limit_guard (q : String) :
    ((selectParser.deepFeatures q).hasAggregation = true →
      selectParser.executeSent q = q) ∧
    ((selectParser.deepFeatures q).hasAggregation = false →
      6 < selectParser.complexityScore (selectParser.deepFeatures q) →
      hasWordRe "LIMIT" q = false →
      selectParser.executeSent q = q ++ " LIMIT 500") ∧
    ((selectParser.deepFeatures q).hasAggregation = false →
      (selectParser.complexityScore (selectParser.deepFeatures q) ≤ 6 ∨
        hasWordRe "LIMIT" q = true) →
      selectParser.executeSent q = q) := by
  refine ⟨fun h => by simp [selectParser.executeSent, h], ?_, ?_⟩
  · intro h hscore hlim
    have hvc := (very_complex_iff (selectParser.deepFeatures q)).mpr hscore
    simp [selectParser.executeSent, h, selectParser.optimizeAdvancedQuery, hvc, hlim]
  · intro h hother
    simp only [selectParser.executeSent, h, Bool.false_eq_true, if_false]
    unfold selectParser.optimizeAdvancedQuery
    rcases hother with hs | hl
    · have hb : (selectParser.calculateComplexity (selectParser.deepFeatures q) ==
          "very_complex") = false := by
        cases hc : (selectParser.calculateComplexity (selectParser.deepFeatures q) ==
            "very_complex")
        · rfl
        · have := (very_complex_iff (selectParser.deepFeatures q)).mp hc
          omega
      simp [hb]
    · simp [hl]

/-- Witness for C10: a very complex non-aggregation query gets the silent
LIMIT, and an aggregation query is never modified. -/
theorem advanced_limit_guard_witness :
    selectParser.executeSent
        "SELECT A FROM T JOIN U ON X WHERE Y IN (SELECT Z FROM W) GROUP BY A ORDER BY A" =
      "SELECT A FROM T JOIN U ON X WHERE Y IN (SELECT Z FROM W) GROUP BY A ORDER BY A LIMIT 500" ∧
    selectParser.executeSent "SELECT COUNT(*) AS total FROM orders" =
      "SELECT COUNT(*) AS total FROM orders" :=
  ⟨((advanced_limit_guard
      "SELECT A FROM T JOIN U ON X WHERE Y IN (SELECT Z FROM W) GROUP BY A ORDER BY A").2.1
      (by decide) (by decide) (by decide)).trans (by decide),
   (advanced_limit_guard "SELECT COUNT(*) AS total FROM orders").1 (by decide)⟩

theorem startsL_iff_pref : ∀ {p s : List Char}, startsL p s = true ↔ p <+: s
  | [], s => by simp [startsL]
  | p :: ps, [] => by simp [startsL]
  | p :: ps, c :: cs => by
    simp only [startsL, Bool.and_eq_true, beq_iff_eq, List.cons_prefix_cons]
    exact and_congr_right fun _ => startsL_iff_pref

theorem containsL_infix_iff : ∀ {p cs : List Char}, containsL p cs = true ↔ p <:+: cs
  | p, [] => by
    simp [containsL, startsL_iff_pref]
  | p, c :: cs => by
    rw [containsL, Bool.or_eq_true, startsL_iff_pref,
      @containsL_infix_iff p cs, List.infix_cons_iff]

theorem containsL_within {p1 p2 cs : List Char} (h : containsL p1 cs = true)
    (hinf : p2 <:+: p1) : containsL p2 cs = true := by
  rw [containsL_infix_iff] at h ⊢
  exact hinf.trans h

/-- If the text does not contain `TABLE`, it does not contain `DROP TABLE`
or `CREATE TABLE` either (and likewise for `COLLECTION`). -/
theorem includes_within {u : String} {small big : String}
    (hinf : small.data <:+: big.data) (h : includes u small = false) :
    includes u big = false := by
  cases hx : includes u big
  · rfl
  · exact absurd (containsL_within hx hinf) (by simp [includes] at h ⊢; exact h)

/-- C8 counterexample: `SELECT COUNT(*) AS total` is missing its FROM anchor,
yet it is classified AGGREGATE_READ, is never syntax-checked, and translates
into a backend command instead of failing with a SyntaxError. -/
theorem missing_from_not_checked_cx :
    includes (upper (trim "SELECT COUNT(*) AS total")) "FROM" = false ∧
    classify "SELECT COUNT(*) AS total" = .AGGREGATE_READ ∧
    translate allPerms "SELECT COUNT(*) AS total" = .ok ⟨"SELECT COUNT(*) AS total"⟩ := by
  decide

/-- C8 amended: on the validated paths, a missing mandatory anchor keyword
makes translation fail with the SyntaxError naming the missing clause before
any command is produced — FROM for simple SELECT and for DELETE (after the
blast-radius gate, hence the WHERE hypotheses), SET for UPDATE, INTO for
INSERT, TABLE/COLLECTION for CREATE and DROP — but a SELECT routed to the
advanced parser is never syntax-checked and always yields a command. -/
theorem missing_anchor_stx_amended :
    (∀ (p : Permissions) (q : String), p.select = true → classify q = .SIMPLE_READ →
      includes (upper (trim q)) "FROM" = false →
      translate p q = .error (.SyntaxError "Sintaxis incorrecta: SELECT debe incluir FROM")) ∧
    (∀ (p : Permissions) (q : String), p.update = true → classify q = .UPDATE →
      includes (upper (trim q)) "WHERE" = true → includes (upper (trim q)) "SET" = false →
      translate p q = .error (.SyntaxError "Sintaxis incorrecta: UPDATE debe incluir SET")) ∧
    (∀ (p : Permissions) (q : String), p.delete = true → classify q = .DELETE →
      includes (upper (trim q)) "WHERE" = true → includes (upper (trim q)) "FROM" = false →
      translate p q = .error (.SyntaxError "Sintaxis incorrecta: DELETE debe incluir FROM")) ∧
    (∀ (p : Permissions) (q : String), classify q = .DROP →
      includes (upper (trim q)) "TABLE" = false →
      includes (upper (trim q)) "COLLECTION" = false →
      translate p q =
        .error (.SyntaxError "Sintaxis incorrecta: DROP debe especificar TABLE o COLLECTION")) ∧
    (∀ (p : Permissions) (q : String), p.insert = true → classify q = .INSERT →
      includes (upper (trim q)) "INTO" = false →
      translate p q = .error (.SyntaxError "Sintaxis incorrecta: INSERT debe incluir INTO")) ∧
    (∀ (p : Permissions) (q : String), classify q = .CREATE →
      includes (upper (trim q)) "TABLE" = false →
      includes (upper (trim q)) "COLLECTION" = false →
      translate p q =
        .error (.SyntaxError "Sintaxis incorrecta: CREATE debe especificar TABLE o COLLECTION")) ∧
    (∀ (p : Permissions) (q : String), p.select = true → classify q = .AGGREGATE_READ →
      translate p q = .ok ⟨selectParser.executeSent q⟩) := by
  refine ⟨?_, ?_, ?_, ?_, ?_, ?_, ?_⟩
  · intro p q hp hk hfrom
    obtain ⟨hd, _⟩ := classify_eq_simple hk
    have hsel := detect_select hd
    simp [translate, hk, readParser.validatePermissions, hp, readParser.run,
      readParser.validateStx, hsel, hfrom]
  · intro p q hp hk hw hset
    have hup := detect_update (classify_eq_update hk)
    simp [translate, hk, updateParser.validatePermissions, hp, hw, updateParser.run,
      updateParser.validateStx, hup, hset]
  · intro p q hp hk hw hfrom
    have hdel := detect_delete (classify_eq_delete hk)
    simp [translate, hk, deleteParser.validatePermissions, hp, hw, hdel, deleteParser.run,
      deleteParser.validateStx, hfrom]
  · intro p q hk htab hcol
    obtain ⟨hdrop, hnotdel⟩ := detect_drop (classify_eq_drop hk)
    have hdt : includes (upper (trim q)) "DROP TABLE" = false :=
      includes_within ⟨"DROP ".data, [], by decide⟩ htab
    have hdc : includes (upper (trim q)) "DROP COLLECTION" = false :=
      includes_within ⟨"DROP ".data, [], by decide⟩ hcol
    simp [translate, hk, deleteParser.validatePermissions, hnotdel, hdt, hdc,
      deleteParser.run, deleteParser.validateStx, hdrop, htab, hcol]
  · intro p q hp hk hinto
    have hins := detect_insert (classify_eq_insert hk)
    simp [translate, hk, createParser.validatePermissions, hp, hins, createParser.run,
      createParser.validateStx, hinto]
  · intro p q hk htab hcol
    obtain ⟨hcr, hnotins⟩ := detect_create (classify_eq_create hk)
    have hct : includes (upper (trim q)) "CREATE TABLE" = false :=
      includes_within ⟨"CREATE ".data, [], by decide⟩ htab
    have hcc : includes (upper (trim q)) "CREATE COLLECTION" = false :=
      includes_within ⟨"CREATE ".data, [], by decide⟩ hcol
    simp [translate, hk, createParser.validatePermissions, hnotins, hct, hcc,
      createParser.run, createParser.validateStx, hcr, htab, hcol]
  · intro p q hp hk
    simp [translate, hk, selectParser.validatePermissions, hp, selectParser.run]

/-- Witness for C8's amended theorem at one concrete statement per kind. -/
theorem missing_anchor_stx_amended_witness :
    translate allPerms "SELECT X" =
      .error (.SyntaxError "Sintaxis incorrecta: SELECT debe incluir FROM") ∧
    translate allPerms "UPDATE T WHERE ID = 1" =
      .error (.SyntaxError "Sintaxis incorrecta: UPDATE debe incluir SET") ∧
    translate allPerms "DELETE WHERE ID = 1" =
      .error (.SyntaxError "Sintaxis incorrecta: DELETE debe incluir FROM") ∧
    translate allPerms "DROP X" =
      .error (.SyntaxError "Sintaxis incorrecta: DROP debe especificar TABLE o COLLECTION") ∧
    translate allPerms "INSERT X VALUES (1)" =
      .error (.SyntaxError "Sintaxis incorrecta: INSERT debe incluir INTO") ∧
    translate allPerms "CREATE X" =
      .error (.SyntaxError "Sintaxis incorrecta: CREATE debe especificar TABLE o COLLECTION") :=
  ⟨missing_anchor_stx_amended.1 allPerms _ rfl (by decide) (by decide),
   missing_anchor_stx_amended.2.1 allPerms _ rfl (by decide) (by decide) (by decide),
   missing_anchor_stx_amended.2.2.1 allPerms _ rfl (by decide) (by decide) (by decide),
   missing_anchor_stx_amended.2.2.2.1 allPerms _ (by decide) (by decide) (by decide),
   missing_anchor_stx_amended.2.2.2.2.1 allPerms _ rfl (by decide) (by decide),
   missing_anchor_stx_amended.2.2.2.2.2.1 allPerms _ (by decide) (by decide) (by decide)⟩

theorem startsL_append_left {p a : List Char} (h : startsL p a = true) (b : List Char) :
    startsL p (a ++ b) = true := by
  rw [startsL_iff_pref] at h ⊢
  exact h.trans (List.prefix_append a b)

theorem startsWith_append_left {s pre : String} (h : startsWith s pre = true) (t : String) :
    startsWith (s ++ t) pre = true := by
  simp only [startsWith, sdata_append] at *
  exact startsL_append_left h _

/-- Every `addComments` output embeds the original SQL in a `// SQL:` comment
line. -/
theorem addComments_embeds (shell ty q : String) :
    ∃ a b : List Char,
      (mongoShell.addComments shell ty q).data = a ++ ("// SQL: " ++ q ++ "\n").data ++ b :=
  ⟨("// MongoDB Shell equivalente para " ++ ty ++ "\n").data,
   ("// Generado automáticamente\n\n" ++ shell).data,
   by simp [mongoShell.addComments, sdata_append, List.append_assoc]⟩

/-- Every `addComments` output whose shell text starts with `db.` splits into
a comment header followed by the command. -/
theorem addComments_split (shell ty q : String) (hsh : startsWith shell "db." = true) :
    ∃ h b : String, mongoShell.addComments shell ty q = h ++ b ∧
      startsWith h "//" = true ∧ startsWith b "db." = true := by
  refine ⟨"// MongoDB Shell equivalente para " ++ ty ++ "\n" ++ "// SQL: " ++ q ++ "\n" ++
    "// Generado automáticamente\n\n", shell, rfl, ?_, hsh⟩
  simp only [startsWith, sdata_append]
  repeat apply startsL_append_left
  decide

/-- The aggregation pipeline output embeds the original SQL as a comment. -/
theorem aggPipeline_embeds (q : String) :
    ∃ a b : List Char,
      (mongoShell.generateAggregationPipeline q).data =
        a ++ ("// SQL: " ++ q ++ "\n").data ++ b := by
  unfold mongoShell.generateAggregationPipeline
  refine ⟨"// MongoDB Shell equivalente para agregación\n".data,
    ("// Usando pipeline de agregación\n\n" ++
      ("db." ++ (mongoShell.analyzeSQL q).table ++ ".aggregate([\n" ++
       mongoShell.joinStr ",\n"
         ((mongoShell.generateAggregationPipelineStages q).map
           (fun s => "  " ++ mongoShell.renderStage s)) ++
       "\n]);")).data, ?_⟩
  simp [sdata_append, List.append_assoc]

/-- The aggregation pipeline output is a comment header followed by the
`db.…aggregate` command. -/
theorem aggPipeline_split (q : String) :
    ∃ h b : String, mongoShell.generateAggregationPipeline q = h ++ b ∧
      startsWith h "//" = true ∧ startsWith b "db." = true := by
  refine ⟨"// MongoDB Shell equivalente para agregación\n" ++ "// SQL: " ++ q ++ "\n" ++
      "// Usando pipeline de agregación\n\n",
    "db." ++ (mongoShell.analyzeSQL q).table ++ ".aggregate([\n" ++
      mongoShell.joinStr ",\n"
        ((mongoShell.generateAggregationPipelineStages q).map
          (fun s => "  " ++ mongoShell.renderStage s)) ++
      "\n]);", rfl, ?_, ?_⟩
  · simp only [startsWith, sdata_append]
    repeat apply startsL_append_left
    decide
  · simp only [startsWith, sdata_append]
    repeat apply startsL_append_left
    decide

/-- The find-style shell text of a simple SELECT starts with `db.`. -/
theorem simpleSelect_shell_db (q : String) :
    ∃ h b : String, mongoShell.generateSimpleSelectShell q = h ++ b ∧
      startsWith h "//" = true ∧ startsWith b "db." = true := by
  unfold mongoShell.generateSimpleSelectShell
  apply addComments_split
  apply startsWith_append_left
  split_ifs <;> (repeat apply startsWith_append_left) <;> decide

/-- C7 counterexample: the rendered output of a read operation does not start
with `db.` — it starts with the comment header. -/
theorem render_starts_comment_cx :
    classify "SELECT * FROM users" = .SIMPLE_READ ∧
    startsWith (mongoShell.generateLocalAdvanced "SELECT * FROM users") "db." = false ∧
    startsWith (mongoShell.generateLocalAdvanced "SELECT * FROM users") "//" = true := by
  decide

/-- C7 amended: for every query the rendered output embeds the literal
original text `q` as a comment (after `// SQL: `, or after `// ` for an
unrecognized statement), and for every SELECT the output is a comment header
(starting `//`) followed by the command text starting `db.` — the output
itself starts with `//`, not with `db.`. -/
theorem render_embeds_amended (q : String) :
    (∃ a b : List Char,
      (mongoShell.generateLocalAdvanced q).data = a ++ ("// SQL: " ++ q ++ "\n").data ++ b ∨
      (mongoShell.generateLocalAdvanced q).data = a ++ ("// " ++ q).data ++ b) ∧
    (mongoShell.detectQueryType q = .SELECT →
      ∃ h b : String, mongoShell.generateLocalAdvanced q = h ++ b ∧
        startsWith h "//" = true ∧ startsWith b "db." = true) := by
  constructor
  · unfold mongoShell.generateLocalAdvanced
    cases hd : mongoShell.detectQueryType q
    case SELECT =>
      unfold mongoShell.generateSelectShellAdvanced
      dsimp only
      split_ifs
      · obtain ⟨a, b, hab⟩ := aggPipeline_embeds q
        exact ⟨a, b, Or.inl hab⟩
      · unfold mongoShell.generateSimpleSelectShell
        obtain ⟨a, b, hab⟩ := addComments_embeds _ "SELECT" q
        exact ⟨a, b, Or.inl hab⟩
    case INSERT =>
      unfold mongoShell.generateInsertShell
      obtain ⟨a, b, hab⟩ := addComments_embeds _ "INSERT" q
      exact ⟨a, b, Or.inl hab⟩
    case UPDATE =>
      unfold mongoShell.generateUpdateShell
      obtain ⟨a, b, hab⟩ := addComments_embeds _ "UPDATE" q
      exact ⟨a, b, Or.inl hab⟩
    case DELETE =>
      unfold mongoShell.generateDeleteShell
      obtain ⟨a, b, hab⟩ := addComments_embeds _ "DELETE" q
      exact ⟨a, b, Or.inl hab⟩
    case CREATE =>
      unfold mongoShell.generateCreateShell
      obtain ⟨a, b, hab⟩ := addComments_embeds _ "CREATE" q
      exact ⟨a, b, Or.inl hab⟩
    case DROP =>
      unfold mongoShell.generateDropShell
      obtain ⟨a, b, hab⟩ := addComments_embeds _ "DROP" q
      exact ⟨a, b, Or.inl hab⟩
    case UNKNOWN =>
      refine ⟨"// Consulta SQL no reconocida:\n".data, [], Or.inr ?_⟩
      have hsplit : ("// Consulta SQL no reconocida:\n// " : String) =
          "// Consulta SQL no reconocida:\n" ++ "// " := rfl
      rw [hsplit]
      simp [sdata_append, List.append_assoc]
  · intro hd
    unfold mongoShell.generateLocalAdvanced
    rw [hd]
    unfold mongoShell.generateSelectShellAdvanced
    dsimp only
    split_ifs
    · exact aggPipeline_split q
    · exact simpleSelect_shell_db q

/-- Witness for C7's amended theorem at one simple and one aggregate read. -/
theorem render_embeds_amended_witness :
    (∃ a b : List Char,
      (mongoShell.generateLocalAdvanced "SELECT * FROM users").data =
        a ++ ("// SQL: " ++ "SELECT * FROM users" ++ "\n").data ++ b ∨
      (mongoShell.generateLocalAdvanced "SELECT * FROM users").data =
        a ++ ("// " ++ "SELECT * FROM users").data ++ b) ∧
    (∃ h b : String,
      mongoShell.generateLocalAdvanced "SELECT COUNT(*) AS total FROM orders" = h ++ b ∧
        startsWith h "//" = true ∧ startsWith b "db." = true) :=
  ⟨(render_embeds_amended "SELECT * FROM users").1,
   (render_embeds_amended "SELECT COUNT(*) AS total FROM orders").2 (by decide)⟩

/-! ## C6: the WHERE-clause translation -/

theorem beq_comm_char (a b : Char) : (a == b) = (b == a) := by
  cases h1 : a == b with
  | true => exact (beq_iff_eq.mpr (eq_of_beq h1).symm).symm
  | false =>
    cases h2 : b == a with
    | true => exact absurd (beq_iff_eq.mpr (eq_of_beq h2).symm) (by simp [h1])
    | false => rfl

theorem alnum_beq_false {c d : Char} (h : c.isAlphanum = true) (hd : d.isAlphanum = false) :
    (c == d) = false := by
  cases hcd : c == d with
  | false => rfl
  | true => rw [eq_of_beq hcd] at h; rw [h] at hd; cases hd

theorem alnum_not_ws {c : Char} (h : c.isAlphanum = true) : wsCh c = false := by
  have h1 := alnum_beq_false h (d := ' ') (by decide)
  have h2 := alnum_beq_false h (d := '\t') (by decide)
  have h3 := alnum_beq_false h (d := '\n') (by decide)
  have h4 := alnum_beq_false h (d := '\r') (by decide)
  have h5 := alnum_beq_false h (d := '\x0b') (by decide)
  have h6 := alnum_beq_false h (d := '\x0c') (by decide)
  simp [wsCh, h1, h2, h3, h4, h5, h6]

theorem ne_nil_of_isEmpty_false {cs : List Char} (h : cs.isEmpty = false) : cs ≠ [] :=
  List.isEmpty_eq_false.mp h

theorem startsCI_head_false {p : Char} {ps : List Char} {c : Char} {t : List Char}
    (h : (p == upChar c) = false) : startsCI (p :: ps) (c :: t) = false := by
  simp [startsCI, h]

/-- Continuing a non-matching text with a space-headed tail cannot create a
case-insensitive prefix match, when the pattern has no space. -/
theorem startsCI_append_break : ∀ (pat l r : List Char),
    startsCI pat l = false → (∀ p ∈ pat, (p == ' ') = false) →
    startsCI pat (l ++ ' ' :: r) = false
  | [], l, r, hl, _ => by simp [startsCI] at hl
  | p :: ps, [], r, _, hp => by
    have : (p == upChar ' ') = false := by
      have := hp p (by simp)
      simpa [show upChar ' ' = ' ' from rfl] using this
    simpa using startsCI_head_false (t := r) this
  | p :: ps, c :: l', r, hl, hp => by
    simp only [startsCI] at hl ⊢
    cases hpc : p == upChar c with
    | false => simp [hpc]
    | true =>
      rw [hpc] at hl
      simp only [Bool.true_and] at hl ⊢
      exact startsCI_append_break ps l' r hl (fun q hq => hp q (by simp [hq]))

theorem whereTermMS_nil : mongoShell.whereTermMS [] = true := by decide

theorem whereTermMS_plain_head {c : Char} (t : List Char)
    (hw : wsCh c = false) (hs : (c == ';') = false) :
    mongoShell.whereTermMS (c :: t) = false := by
  have hdrop : (c :: t).dropWhile wsCh = c :: t :=
    List.dropWhile_cons_of_neg (by simp [hw])
  simp only [mongoShell.whereTermMS, eatWs1, hw, semiAt, allWs, hdrop, List.all_cons]
  simp [hs, hw]

theorem whereTermMS_alnum_head {c : Char} (t : List Char) (h : c.isAlphanum = true) :
    mongoShell.whereTermMS (c :: t) = false :=
  whereTermMS_plain_head t (alnum_not_ws h) (alnum_beq_false h (by decide))

/-- A single space, then a plain char continuing non-terminator text. -/
theorem whereTermMS_one_ws {c : Char} {r' : List Char}
    (hcw : wsCh c = false) (hcs : (c == ';') = false)
    (hG : startsCI "GROUP".data (c :: r') = false)
    (hO : startsCI "ORDER".data (c :: r') = false)
    (hL : startsCI "LIMIT".data (c :: r') = false) :
    mongoShell.whereTermMS (' ' :: c :: r') = false := by
  simp only [mongoShell.whereTermMS, eatWs1, semiAt, allWs]
  have hws : wsCh ' ' = true := by decide
  have hdrop : (' ' :: c :: r').dropWhile wsCh = c :: r' := by
    rw [List.dropWhile_cons_of_pos (by simp [hws]), List.dropWhile_cons_of_neg (by simp [hcw])]
  simp [hws, hdrop, hG, hO, hL, hcs, hcw]

theorem suffix_append_cases {s l r : List Char} (h : s <:+ l ++ r) :
    s <:+ r ∨ ∃ l', l' <:+ l ∧ l' ≠ [] ∧ s = l' ++ r := by
  induction l with
  | nil => exact Or.inl (by simpa using h)
  | cons a l' ih =>
    rcases List.suffix_cons_iff.mp h with rfl | h'
    · exact Or.inr ⟨a :: l', List.suffix_refl _, by simp, by simp⟩
    · rcases ih h' with h'' | ⟨l'', h1, h2, h3⟩
      · exact Or.inl h''
      · exact Or.inr ⟨l'', h1.trans (List.suffix_cons a l'), h2, h3⟩

/-- Every nonempty suffix of the text `f = v` (plain tokens) fails the
where-clause terminator test. -/
theorem whereTerm_seg1 {f v : List Char}
    (hfa : ∀ c ∈ f, c.isAlphanum = true)
    (hvne : v ≠ []) (hva : ∀ c ∈ v, c.isAlphanum = true)
    (hG : startsCI "GROUP".data v = false) (hO : startsCI "ORDER".data v = false)
    (hL : startsCI "LIMIT".data v = false) :
    ∀ s, s <:+ (f ++ ' ' :: '=' :: ' ' :: v) → s ≠ [] → mongoShell.whereTermMS s = false := by
  intro s hs hne
  rcases suffix_append_cases hs with hs | ⟨f', hf', hf'ne, rfl⟩
  · rcases List.suffix_cons_iff.mp hs with rfl | hs
    · obtain ⟨d, v', rfl⟩ : ∃ d v', v = d :: v' := by
        cases v with
        | nil => exact absurd rfl hvne
        | cons d v' => exact ⟨d, v', rfl⟩
      exact whereTermMS_one_ws (by decide) (by decide)
        (startsCI_head_false (by decide)) (startsCI_head_false (by decide))
        (startsCI_head_false (by decide))
    · rcases List.suffix_cons_iff.mp hs with rfl | hs
      · exact whereTermMS_plain_head _ (by decide) (by decide)
      · rcases List.suffix_cons_iff.mp hs with rfl | hs
        · obtain ⟨d, v', rfl⟩ : ∃ d v', v = d :: v' := by
            cases v with
            | nil => exact absurd rfl hvne
            | cons d v' => exact ⟨d, v', rfl⟩
          have hd : d.isAlphanum = true := hva d (by simp)
          exact whereTermMS_one_ws (alnum_not_ws hd) (alnum_beq_false hd (by decide)) hG hO hL
        · cases s with
          | nil => exact absurd rfl hne
          | cons c t =>
            have hc : c.isAlphanum = true := hva c (hs.subset (by simp))
            exact whereTermMS_alnum_head t hc
  · cases f' with
    | nil => exact absurd rfl hf'ne
    | cons c t =>
      have hc : c.isAlphanum = true := hfa c (hf'.subset (by simp))
      exact whereTermMS_alnum_head _ hc

theorem lazyCapture_full (term : List Char → Bool) (hnil : term [] = true) :
    ∀ (cs : List Char), cs ≠ [] →
    (∀ s, s <:+ cs → s ≠ [] → s ≠ cs → term s = false) →
    lazyCapture term cs = some (cs, [])
  | [], hne, _ => absurd rfl hne
  | c :: cs', _, h => by
    cases cs' with
    | nil => simp [lazyCapture, hnil]
    | cons d t =>
      have hterm : term (d :: t) = false := by
        refine h (d :: t) (List.suffix_cons c _) (by simp) ?_
        intro he
        exact absurd (congrArg List.length he) (by simp)
      rw [lazyCapture, if_neg (by simp [hterm])]
      rw [lazyCapture_full term hnil (d :: t) (by simp) ?_]
      intro s hs hsne hne'
      refine h s (hs.trans (List.suffix_cons c _)) hsne ?_
      intro he
      have := hs.length_le
      rw [he] at this
      simp at this

theorem matchAfterKw_single_ws {term : List Char → Bool} {c : Char} {t : List Char}
    (hc : wsCh c = false) (hlc : lazyCapture term (c :: t) = some (c :: t, [])) :
    matchAfterKw term (' ' :: c :: t) = some (c :: t) := by
  have hws : wsCh ' ' = true := by decide
  have hdrop : (' ' :: c :: t).dropWhile wsCh = c :: t := by
    rw [List.dropWhile_cons_of_pos (by simp [hws]), List.dropWhile_cons_of_neg (by simp [hc])]
  simp only [matchAfterKw, hws, if_pos rfl, hdrop, hlc]
  simp

theorem scanFirst_prev_irrel {α : Type} (g : List Char → Option α) :
    ∀ (cs : List Char) (p p' : Option Char),
    scanFirst (fun _ cs => g cs) p cs = scanFirst (fun _ cs => g cs) p' cs
  | [], _, _ => rfl
  | c :: cs, p, p' => by
    simp only [scanFirst]

theorem scanFirst_append_none {α : Type} (g : List Char → Option α) :
    ∀ (l r : List Char) (p : Option Char),
    (∀ c ∈ l, ∀ t, g (c :: t) = none) →
    scanFirst (fun _ cs => g cs) p (l ++ r) = scanFirst (fun _ cs => g cs) none r
  | [], r, p, _ => scanFirst_prev_irrel g r p none
  | c :: l', r, p, h => by
    rw [List.cons_append, scanFirst]
    rw [h c (by simp) (l' ++ r)]
    exact scanFirst_append_none g l' r (some c) (fun d hd t => h d (by simp [hd]) t)

theorem whereF_not_W {c : Char} {t : List Char} (h : ('W' == upChar c) = false) :
    mongoShell.whereF (c :: t) = none := by
  have : "WHERE".data = 'W' :: "HERE".data := rfl
  rw [mongoShell.whereF, this, if_neg (by simp [startsCI_head_false h])]

theorem whereCapture_concrete {pre seg : List Char} {c0 : Char} {t0 : List Char}
    (hpre : ∀ c ∈ pre, ('W' == upChar c) = false)
    (hseg : seg = c0 :: t0) (hc0 : wsCh c0 = false)
    (hterm : ∀ s, s <:+ seg → s ≠ [] → mongoShell.whereTermMS s = false) :
    mongoShell.whereCapture ⟨pre ++ 'W' :: 'H' :: 'E' :: 'R' :: 'E' :: ' ' :: seg⟩ =
      some ⟨seg⟩ := by
  rw [mongoShell.whereCapture]
  show scanFirst (fun _ cs => mongoShell.whereF cs) none _ = _
  rw [scanFirst_append_none mongoShell.whereF pre _ none
    (fun c hc t => whereF_not_W (hpre c hc))]
  rw [scanFirst]
  have hlc : lazyCapture mongoShell.whereTermMS seg = some (seg, []) := by
    apply lazyCapture_full _ whereTermMS_nil _ (by simp [hseg])
    intro s hs h1 h2
    exact hterm s hs h1
  have hwf : mongoShell.whereF ('W' :: 'H' :: 'E' :: 'R' :: 'E' :: ' ' :: seg) =
      some ⟨seg⟩ := by
    rw [mongoShell.whereF]
    have hst : startsCI "WHERE".data ('W' :: 'H' :: 'E' :: 'R' :: 'E' :: ' ' :: seg) = true := by
      show startsCI ['W', 'H', 'E', 'R', 'E'] _ = true
      simp only [startsCI]
      decide
    rw [if_pos hst]
    have hdrop : ('W' :: 'H' :: 'E' :: 'R' :: 'E' :: ' ' :: seg).drop 5 = ' ' :: seg := rfl
    rw [hdrop, hseg, matchAfterKw_single_ws hc0 (hseg ▸ hlc)]
    rfl
  rw [hwf]

/-! mongoShell.repAND lemmas -/

theorem andAt_head1 {a : Char} (t : List Char) (h : (upChar a == 'A') = false) :
    mongoShell.andAt (a :: t) = false := by
  cases t with
  | nil => rfl
  | cons b t' =>
    cases t' with
    | nil => rfl
    | cons c t'' => simp [mongoShell.andAt, h]

theorem andAt_head2 {a b : Char} (t : List Char) (h : (upChar b == 'N') = false) :
    mongoShell.andAt (a :: b :: t) = false := by
  cases t with
  | nil => rfl
  | cons c t' => simp [mongoShell.andAt, h]

theorem andAt_head3 {a b c : Char} (t : List Char) (h : (upChar c == 'D') = false) :
    mongoShell.andAt (a :: b :: c :: t) = false := by
  simp [mongoShell.andAt, h]

theorem andAt_of_ci {a b c : Char} {r r' : List Char}
    (h : startsCI "AND".data (a :: b :: c :: r) = false) :
    mongoShell.andAt (a :: b :: c :: r') = false := by
  have : "AND".data = ['A', 'N', 'D'] := rfl
  rw [this] at h
  simp only [startsCI, Bool.and_true] at h
  simp only [mongoShell.andAt]
  rw [beq_comm_char (upChar a), beq_comm_char (upChar b), beq_comm_char (upChar c)]
  rw [Bool.and_assoc]
  exact h

theorem ci_false_suffix {pat : List Char} :
    ∀ {l s : List Char}, containsCI pat l = false → s <:+ l → startsCI pat s = false := by
  intro l
  induction l with
  | nil =>
    intro s h hs
    rw [List.suffix_nil.mp hs]
    exact h
  | cons c t ih =>
    intro s h hs
    simp only [containsCI, Bool.or_eq_false_iff] at h
    rcases List.suffix_cons_iff.mp hs with rfl | hs'
    · exact h.1
    · exact ih h.2 hs'

theorem repAND_cons_no (x : Char) (t : List Char) (h : mongoShell.andAt (x :: t) = false) :
    mongoShell.repAND (x :: t) = x :: mongoShell.repAND t := by
  cases t with
  | nil => rfl
  | cons b t' =>
    cases t' with
    | nil => rfl
    | cons c t'' =>
      simp only [mongoShell.andAt] at h
      rw [mongoShell.repAND, if_neg (by simp [h])]

theorem repAND_and_head (r : List Char) : mongoShell.repAND ('A' :: 'N' :: 'D' :: r) = ',' :: mongoShell.repAND r := by
  rw [mongoShell.repAND, if_pos (by decide)]

theorem repAND_eq_self : ∀ {cs : List Char},
    (∀ s, s <:+ cs → mongoShell.andAt s = false) → mongoShell.repAND cs = cs
  | [], _ => rfl
  | x :: t, h => by
    rw [repAND_cons_no x t (h _ (List.suffix_refl _))]
    rw [repAND_eq_self (fun s hs => h s (hs.trans (List.suffix_cons x t)))]

theorem repAND_append_one {l r : List Char}
    (hl : ∀ s, s <:+ l → s ≠ [] → mongoShell.andAt (s ++ 'A' :: 'N' :: 'D' :: r) = false) :
    mongoShell.repAND (l ++ 'A' :: 'N' :: 'D' :: r) = l ++ ',' :: mongoShell.repAND r := by
  induction l with
  | nil => simpa using repAND_and_head r
  | cons x l' ih =>
    rw [List.cons_append,
      repAND_cons_no x (l' ++ 'A' :: 'N' :: 'D' :: r)
        (by simpa using hl (x :: l') (List.suffix_refl _) (by simp)),
      ih (fun s hs hne => hl s (hs.trans (List.suffix_cons x l')) hne)]
    rfl

/-! map-identity lemmas -/

theorem map_id_of {g : Char → Char} {cs : List Char} (h : ∀ c ∈ cs, g c = c) :
    cs.map g = cs :=
  (List.map_congr_left h).trans (List.map_id cs)

theorem trimCh_of_ends {cs : List Char} {c d : Char} (hh : cs.head? = some c)
    (hc : wsCh c = false) (hl : cs.getLast? = some d) (hd : wsCh d = false) :
    trimCh cs = cs := by
  cases cs with
  | nil => cases hh
  | cons e t =>
    have hce : e = c := by simpa using hh
    subst hce
    have h1 : (e :: t).dropWhile wsCh = e :: t := List.dropWhile_cons_of_neg (by simp [hc])
    have hrev : (e :: t).reverse.head? = some d := by
      rw [List.head?_reverse]
      exact hl
    cases hr : (e :: t).reverse with
    | nil => rw [hr] at hrev; cases hrev
    | cons d' t' =>
      rw [hr] at hrev
      have hdd : d' = d := by simpa using hrev
      subst hdd
      have h2 : (d' :: t').dropWhile wsCh = d' :: t' := List.dropWhile_cons_of_neg (by simp [hd])
      rw [trimCh, h1, hr, h2, ← hr, List.reverse_reverse]



theorem whereTerm_seg2 {f1 v1 f2 v2 : List Char}
    (hf1a : ∀ c ∈ f1, c.isAlphanum = true)
    (hv1ne : v1 ≠ []) (hv1a : ∀ c ∈ v1, c.isAlphanum = true)
    (hv1G : startsCI "GROUP".data v1 = false) (hv1O : startsCI "ORDER".data v1 = false)
    (hv1L : startsCI "LIMIT".data v1 = false)
    (hf2ne : f2 ≠ []) (hf2a : ∀ c ∈ f2, c.isAlphanum = true)
    (hf2G : startsCI "GROUP".data f2 = false) (hf2O : startsCI "ORDER".data f2 = false)
    (hf2L : startsCI "LIMIT".data f2 = false)
    (hv2ne : v2 ≠ []) (hv2a : ∀ c ∈ v2, c.isAlphanum = true)
    (hv2G : startsCI "GROUP".data v2 = false) (hv2O : startsCI "ORDER".data v2 = false)
    (hv2L : startsCI "LIMIT".data v2 = false) :
    ∀ s, s <:+ (f1 ++ ' ' :: '=' :: ' ' ::
        (v1 ++ ' ' :: 'A' :: 'N' :: 'D' :: ' ' :: (f2 ++ ' ' :: '=' :: ' ' :: v2))) →
      s ≠ [] → mongoShell.whereTermMS s = false := by
  intro s hs hne
  rcases suffix_append_cases hs with hs | ⟨f', hf', hf'ne, rfl⟩
  · rcases List.suffix_cons_iff.mp hs with rfl | hs
    · exact whereTermMS_one_ws (by decide) (by decide)
        (startsCI_head_false (by decide)) (startsCI_head_false (by decide))
        (startsCI_head_false (by decide))
    · rcases List.suffix_cons_iff.mp hs with rfl | hs
      · exact whereTermMS_plain_head _ (by decide) (by decide)
      · rcases List.suffix_cons_iff.mp hs with rfl | hs
        · obtain ⟨d, v1', rfl⟩ : ∃ d v1', v1 = d :: v1' := by
            cases v1 with
            | nil => exact absurd rfl hv1ne
            | cons d v1' => exact ⟨d, v1', rfl⟩
          have hd : d.isAlphanum = true := hv1a d (by simp)
          have hG := startsCI_append_break "GROUP".data (d :: v1')
            ('A' :: 'N' :: 'D' :: ' ' :: (f2 ++ ' ' :: '=' :: ' ' :: v2)) hv1G (by decide)
          have hO := startsCI_append_break "ORDER".data (d :: v1')
            ('A' :: 'N' :: 'D' :: ' ' :: (f2 ++ ' ' :: '=' :: ' ' :: v2)) hv1O (by decide)
          have hL := startsCI_append_break "LIMIT".data (d :: v1')
            ('A' :: 'N' :: 'D' :: ' ' :: (f2 ++ ' ' :: '=' :: ' ' :: v2)) hv1L (by decide)
          exact whereTermMS_one_ws (alnum_not_ws hd) (alnum_beq_false hd (by decide))
            (by simpa using hG) (by simpa using hO) (by simpa using hL)
        · rcases suffix_append_cases hs with hs | ⟨v', hv', hv'ne, rfl⟩
          · rcases List.suffix_cons_iff.mp hs with rfl | hs
            · exact whereTermMS_one_ws (by decide) (by decide)
                (startsCI_head_false (by decide)) (startsCI_head_false (by decide))
                (startsCI_head_false (by decide))
            · rcases List.suffix_cons_iff.mp hs with rfl | hs
              · exact whereTermMS_plain_head _ (by decide) (by decide)
              · rcases List.suffix_cons_iff.mp hs with rfl | hs
                · exact whereTermMS_plain_head _ (by decide) (by decide)
                · rcases List.suffix_cons_iff.mp hs with rfl | hs
                  · exact whereTermMS_plain_head _ (by decide) (by decide)
                  · rcases List.suffix_cons_iff.mp hs with rfl | hs
                    · obtain ⟨d, f2', rfl⟩ : ∃ d f2', f2 = d :: f2' := by
                        cases f2 with
                        | nil => exact absurd rfl hf2ne
                        | cons d f2' => exact ⟨d, f2', rfl⟩
                      have hd : d.isAlphanum = true := hf2a d (by simp)
                      have hG := startsCI_append_break "GROUP".data (d :: f2')
                        ('=' :: ' ' :: v2) hf2G (by decide)
                      have hO := startsCI_append_break "ORDER".data (d :: f2')
                        ('=' :: ' ' :: v2) hf2O (by decide)
                      have hL := startsCI_append_break "LIMIT".data (d :: f2')
                        ('=' :: ' ' :: v2) hf2L (by decide)
                      exact whereTermMS_one_ws (alnum_not_ws hd) (alnum_beq_false hd (by decide))
                        (by simpa using hG) (by simpa using hO) (by simpa using hL)
                    · exact whereTerm_seg1 hf2a hv2ne hv2a hv2G hv2O hv2L s hs hne
          · cases v' with
            | nil => exact absurd rfl hv'ne
            | cons c t =>
              have hc : c.isAlphanum = true := hv1a c (hv'.subset (by simp))
              exact whereTermMS_alnum_head _ hc
  · cases f' with
    | nil => exact absurd rfl hf'ne
    | cons c t =>
      have hc : c.isAlphanum = true := hf1a c (hf'.subset (by simp))
      exact whereTermMS_alnum_head _ hc

theorem andAt_of_ci_self {s : List Char} (h : startsCI "AND".data s = false) :
    mongoShell.andAt s = false := by
  match s with
  | [] => rfl
  | [a] => rfl
  | [a, b] => rfl
  | a :: b :: c :: r => exact @andAt_of_ci a b c r r h

theorem andAt_seg1 {f v : List Char}
    (hf : containsCI "AND".data f = false) (hv : containsCI "AND".data v = false) :
    ∀ s, s <:+ (f ++ ' ' :: ':' :: ' ' :: v) → mongoShell.andAt s = false := by
  intro s hs
  rcases suffix_append_cases hs with hs | ⟨f', hf', hf'ne, rfl⟩
  · rcases List.suffix_cons_iff.mp hs with rfl | hs
    · exact andAt_head1 _ (by decide)
    · rcases List.suffix_cons_iff.mp hs with rfl | hs
      · exact andAt_head1 _ (by decide)
      · rcases List.suffix_cons_iff.mp hs with rfl | hs
        · exact andAt_head1 _ (by decide)
        · exact andAt_of_ci_self (ci_false_suffix hv hs)
  · cases f' with
    | nil => exact absurd rfl hf'ne
    | cons a t =>
      cases t with
      | nil => exact andAt_head2 _ (by decide)
      | cons b t2 =>
        cases t2 with
        | nil => exact andAt_head3 _ (by decide)
        | cons c t3 =>
          exact andAt_of_ci (ci_false_suffix hf hf')

theorem andAt_seg2_left {f1 v1 r0 : List Char}
    (hf1 : containsCI "AND".data f1 = false) (hv1 : containsCI "AND".data v1 = false) :
    ∀ s, s <:+ (f1 ++ ' ' :: ':' :: ' ' :: (v1 ++ [' '])) → s ≠ [] →
      mongoShell.andAt (s ++ 'A' :: 'N' :: 'D' :: r0) = false := by
  intro s hs hne
  rcases suffix_append_cases hs with hs | ⟨f', hf', hf'ne, rfl⟩
  · rcases List.suffix_cons_iff.mp hs with rfl | hs
    · exact andAt_head1 _ (by decide)
    · rcases List.suffix_cons_iff.mp hs with rfl | hs
      · exact andAt_head1 _ (by decide)
      · rcases List.suffix_cons_iff.mp hs with rfl | hs
        · exact andAt_head1 _ (by decide)
        · rcases suffix_append_cases hs with hs | ⟨v', hv', hv'ne, rfl⟩
          · rcases List.suffix_cons_iff.mp hs with rfl | hs
            · exact andAt_head1 _ (by decide)
            · rw [List.suffix_nil.mp hs] at hne
              exact absurd rfl hne
          · cases v' with
            | nil => exact absurd rfl hv'ne
            | cons a t =>
              cases t with
              | nil => exact andAt_head2 _ (by decide)
              | cons b t2 =>
                cases t2 with
                | nil => exact andAt_head3 _ (by decide)
                | cons c t3 =>
                  exact andAt_of_ci (ci_false_suffix hv1 hv')
  · cases f' with
    | nil => exact absurd rfl hf'ne
    | cons a t =>
      cases t with
      | nil => exact andAt_head2 _ (by decide)
      | cons b t2 =>
        cases t2 with
        | nil => exact andAt_head3 _ (by decide)
        | cons c t3 =>
          exact andAt_of_ci (ci_false_suffix hf1 hf')

theorem andAt_seg2_right {f2 v2 : List Char}
    (hf2 : containsCI "AND".data f2 = false) (hv2 : containsCI "AND".data v2 = false) :
    ∀ s, s <:+ (' ' :: (f2 ++ ' ' :: ':' :: ' ' :: v2)) → mongoShell.andAt s = false := by
  intro s hs
  rcases List.suffix_cons_iff.mp hs with rfl | hs
  · exact andAt_head1 _ (by decide)
  · exact andAt_seg1 hf2 hv2 s hs

/-! replacement computations -/

theorem repEq_append (a b : List Char) :
    mongoShell.repEq (a ++ b) = mongoShell.repEq a ++ mongoShell.repEq b := by
  simp [mongoShell.repEq]

theorem repQuote_append (a b : List Char) :
    mongoShell.repQuote (a ++ b) = mongoShell.repQuote a ++ mongoShell.repQuote b := by
  simp [mongoShell.repQuote]

theorem repEq_id {cs : List Char} (h : ∀ c ∈ cs, c.isAlphanum = true) :
    mongoShell.repEq cs = cs := by
  rw [mongoShell.repEq]
  exact map_id_of (fun c hc => by
    simp [alnum_beq_false (h c hc) (show ('=').isAlphanum = false by decide)])

theorem repQuote_id_alnum {cs : List Char} (h : ∀ c ∈ cs, c.isAlphanum = true) :
    mongoShell.repQuote cs = cs := by
  rw [mongoShell.repQuote]
  exact map_id_of (fun c hc => by
    simp [alnum_beq_false (h c hc) (show ('\'').isAlphanum = false by decide)])

theorem plainTok_unpack {s : String} (h : plainTok s = true) :
    s.data ≠ [] ∧ (∀ c ∈ s.data, c.isAlphanum = true) ∧
    containsCI "AND".data s.data = false ∧ startsCI "GROUP".data s.data = false ∧
    startsCI "ORDER".data s.data = false ∧ startsCI "LIMIT".data s.data = false := by
  simp only [plainTok, Bool.and_eq_true, Bool.not_eq_true'] at h
  obtain ⟨⟨⟨⟨⟨h1, h2⟩, h3⟩, h4⟩, h5⟩, h6⟩ := h
  refine ⟨List.isEmpty_eq_false.mp h1, fun c hc => ?_, h3, h4, h5, h6⟩
  have := List.all_eq_true.mp h2 c hc
  simpa using this

theorem extractWhere_out {p : String} {seg segQ t0 t1 : List Char} {c0 c1 : Char}
    (hp : ∀ c ∈ p.data, ('W' == upChar c) = false)
    (hseg : seg = c0 :: t0) (hc0 : wsCh c0 = false)
    (hterm : ∀ s, s <:+ seg → s ≠ [] → mongoShell.whereTermMS s = false)
    (htrim : trimCh seg = seg)
    (hrep : mongoShell.repQuote (mongoShell.repAND (mongoShell.repEq seg)) = segQ)
    (hsegQ : segQ = c1 :: t1) (hc1 : c1 ≠ '\x7b') :
    mongoShell.extractWhereConditions ⟨p.data ++ 'W' :: 'H' :: 'E' :: 'R' :: 'E' :: ' ' :: seg⟩ =
      ⟨'\x7b' :: ' ' :: (segQ ++ [' ', '\x7d'])⟩ := by
  have hcap := whereCapture_concrete hp hseg hc0 hterm
  rw [mongoShell.extractWhereConditions, hcap]
  show (match mongoShell.repQuote (mongoShell.repAND (mongoShell.repEq
      (trimCh (String.data ⟨seg⟩)))) with
    | '\x7b' :: _ => (⟨mongoShell.repQuote (mongoShell.repAND (mongoShell.repEq
        (trimCh (String.data ⟨seg⟩))))⟩ : String)
    | _ => ⟨'\x7b' :: ' ' :: (mongoShell.repQuote (mongoShell.repAND (mongoShell.repEq
        (trimCh (String.data ⟨seg⟩)))) ++ [' ', '\x7d'])⟩) = _
  have hdata : String.data ⟨seg⟩ = seg := rfl
  rw [hdata, htrim, hrep, hsegQ]
  split
  · rename_i heq
    exact absurd (by injection heq) hc1
  · rfl


theorem repEq_seg1 {f v : List Char} (hf : ∀ c ∈ f, c.isAlphanum = true)
    (hv : ∀ c ∈ v, c.isAlphanum = true) :
    mongoShell.repEq (f ++ ' ' :: '=' :: ' ' :: v) = f ++ ' ' :: ':' :: ' ' :: v := by
  have h1 : f ++ ' ' :: '=' :: ' ' :: v = f ++ ([' ', '=', ' '] ++ v) := by simp
  rw [h1, repEq_append, repEq_append, repEq_id hf, repEq_id hv,
    show mongoShell.repEq [' ', '=', ' '] = [' ', ':', ' '] from by decide]
  simp

theorem repQuote_seg1 {f v : List Char} (hf : ∀ c ∈ f, c.isAlphanum = true)
    (hv : ∀ c ∈ v, c.isAlphanum = true) :
    mongoShell.repQuote (f ++ ' ' :: ':' :: ' ' :: v) = f ++ ' ' :: ':' :: ' ' :: v := by
  have h1 : f ++ ' ' :: ':' :: ' ' :: v = f ++ ([' ', ':', ' '] ++ v) := by simp
  rw [h1, repQuote_append, repQuote_append, repQuote_id_alnum hf, repQuote_id_alnum hv,
    show mongoShell.repQuote [' ', ':', ' '] = [' ', ':', ' '] from by decide]

theorem repEq_seg2 {f1 v1 f2 v2 : List Char}
    (hf1 : ∀ c ∈ f1, c.isAlphanum = true) (hv1 : ∀ c ∈ v1, c.isAlphanum = true)
    (hf2 : ∀ c ∈ f2, c.isAlphanum = true) (hv2 : ∀ c ∈ v2, c.isAlphanum = true) :
    mongoShell.repEq (f1 ++ ' ' :: '=' :: ' ' ::
        (v1 ++ ' ' :: 'A' :: 'N' :: 'D' :: ' ' :: (f2 ++ ' ' :: '=' :: ' ' :: v2))) =
      f1 ++ ' ' :: ':' :: ' ' ::
        (v1 ++ ' ' :: 'A' :: 'N' :: 'D' :: ' ' :: (f2 ++ ' ' :: ':' :: ' ' :: v2)) := by
  have h1 : f1 ++ ' ' :: '=' :: ' ' ::
        (v1 ++ ' ' :: 'A' :: 'N' :: 'D' :: ' ' :: (f2 ++ ' ' :: '=' :: ' ' :: v2)) =
      f1 ++ ([' ', '=', ' '] ++ (v1 ++ ([' ', 'A', 'N', 'D', ' '] ++
        (f2 ++ ([' ', '=', ' '] ++ v2))))) := by simp
  rw [h1, repEq_append, repEq_append, repEq_append, repEq_append, repEq_append, repEq_append,
    repEq_id hf1, repEq_id hv1, repEq_id hf2, repEq_id hv2,
    show mongoShell.repEq [' ', '=', ' '] = [' ', ':', ' '] from by decide,
    show mongoShell.repEq [' ', 'A', 'N', 'D', ' '] = [' ', 'A', 'N', 'D', ' '] from by decide]
  simp

theorem repQuote_seg2 {f1 v1 f2 v2 : List Char}
    (hf1 : ∀ c ∈ f1, c.isAlphanum = true) (hv1 : ∀ c ∈ v1, c.isAlphanum = true)
    (hf2 : ∀ c ∈ f2, c.isAlphanum = true) (hv2 : ∀ c ∈ v2, c.isAlphanum = true) :
    mongoShell.repQuote (f1 ++ ' ' :: ':' :: ' ' ::
        (v1 ++ ' ' :: ',' :: ' ' :: (f2 ++ ' ' :: ':' :: ' ' :: v2))) =
      f1 ++ ' ' :: ':' :: ' ' ::
        (v1 ++ ' ' :: ',' :: ' ' :: (f2 ++ ' ' :: ':' :: ' ' :: v2)) := by
  have h1 : f1 ++ ' ' :: ':' :: ' ' ::
        (v1 ++ ' ' :: ',' :: ' ' :: (f2 ++ ' ' :: ':' :: ' ' :: v2)) =
      f1 ++ ([' ', ':', ' '] ++ (v1 ++ ([' ', ',', ' '] ++
        (f2 ++ ([' ', ':', ' '] ++ v2))))) := by simp
  rw [h1, repQuote_append, repQuote_append, repQuote_append, repQuote_append, repQuote_append,
    repQuote_append, repQuote_id_alnum hf1, repQuote_id_alnum hv1, repQuote_id_alnum hf2, repQuote_id_alnum hv2,
    show mongoShell.repQuote [' ', ':', ' '] = [' ', ':', ' '] from by decide,
    show mongoShell.repQuote [' ', ',', ' '] = [' ', ',', ' '] from by decide]

theorem extractWhere_atom {p f v : String}
    (hp : ∀ c ∈ p.data, ('W' == upChar c) = false)
    (hf : plainTok f = true) (hv : plainTok v = true) :
    mongoShell.extractWhereConditions
      ⟨p.data ++ 'W' :: 'H' :: 'E' :: 'R' :: 'E' :: ' ' ::
        (f.data ++ ' ' :: '=' :: ' ' :: v.data)⟩ =
      ⟨'\x7b' :: ' ' :: ((f.data ++ ' ' :: ':' :: ' ' :: v.data) ++ [' ', '\x7d'])⟩ := by
  obtain ⟨hfne, hfa, hfAND, _, _, _⟩ := plainTok_unpack hf
  obtain ⟨hvne, hva, hvAND, hvG, hvO, hvL⟩ := plainTok_unpack hv
  obtain ⟨c0, t0, hf0⟩ : ∃ c0 t0, f.data = c0 :: t0 := by
    cases hfd : f.data with
    | nil => exact absurd hfd hfne
    | cons c t => exact ⟨c, t, rfl⟩
  have hc0a : c0.isAlphanum = true := hfa c0 (by rw [hf0]; simp)
  have hgl : (f.data ++ ' ' :: '=' :: ' ' :: v.data).getLast? =
      some (v.data.getLast hvne) := by
    have h1 : f.data ++ ' ' :: '=' :: ' ' :: v.data =
        (f.data ++ [' ', '=', ' ']) ++ v.data := by simp
    rw [h1, List.getLast?_append, List.getLast?_eq_getLast v.data hvne]
    rfl
  have hgla : (v.data.getLast hvne).isAlphanum = true := hva _ (List.getLast_mem hvne)
  have htrim : trimCh (f.data ++ ' ' :: '=' :: ' ' :: v.data) =
      f.data ++ ' ' :: '=' :: ' ' :: v.data := by
    apply trimCh_of_ends (c := c0) (d := v.data.getLast hvne)
    · rw [hf0]; rfl
    · exact alnum_not_ws hc0a
    · exact hgl
    · exact alnum_not_ws hgla
  have hrep : mongoShell.repQuote (mongoShell.repAND (mongoShell.repEq
      (f.data ++ ' ' :: '=' :: ' ' :: v.data))) = f.data ++ ' ' :: ':' :: ' ' :: v.data := by
    rw [repEq_seg1 hfa hva, repAND_eq_self (andAt_seg1 hfAND hvAND), repQuote_seg1 hfa hva]
  have hseg : f.data ++ ' ' :: '=' :: ' ' :: v.data =
      c0 :: (t0 ++ ' ' :: '=' :: ' ' :: v.data) := by rw [hf0]; rfl
  have hsegQ : f.data ++ ' ' :: ':' :: ' ' :: v.data =
      c0 :: (t0 ++ ' ' :: ':' :: ' ' :: v.data) := by rw [hf0]; rfl
  exact extractWhere_out hp hseg (alnum_not_ws hc0a)
    (whereTerm_seg1 hfa hvne hva hvG hvO hvL) htrim hrep hsegQ
    (fun he => by rw [he] at hc0a; exact absurd hc0a (by decide))

theorem extractWhere_and {p f1 v1 f2 v2 : String}
    (hp : ∀ c ∈ p.data, ('W' == upChar c) = false)
    (hf1 : plainTok f1 = true) (hv1 : plainTok v1 = true)
    (hf2 : plainTok f2 = true) (hv2 : plainTok v2 = true) :
    mongoShell.extractWhereConditions
      ⟨p.data ++ 'W' :: 'H' :: 'E' :: 'R' :: 'E' :: ' ' ::
        (f1.data ++ ' ' :: '=' :: ' ' :: (v1.data ++ ' ' :: 'A' :: 'N' :: 'D' :: ' ' ::
          (f2.data ++ ' ' :: '=' :: ' ' :: v2.data)))⟩ =
      ⟨'\x7b' :: ' ' :: ((f1.data ++ ' ' :: ':' :: ' ' :: (v1.data ++ ' ' :: ',' :: ' ' ::
          (f2.data ++ ' ' :: ':' :: ' ' :: v2.data))) ++ [' ', '\x7d'])⟩ := by
  obtain ⟨hf1ne, hf1a, hf1AND, _, _, _⟩ := plainTok_unpack hf1
  obtain ⟨hv1ne, hv1a, hv1AND, hv1G, hv1O, hv1L⟩ := plainTok_unpack hv1
  obtain ⟨hf2ne, hf2a, hf2AND, hf2G, hf2O, hf2L⟩ := plainTok_unpack hf2
  obtain ⟨hv2ne, hv2a, hv2AND, hv2G, hv2O, hv2L⟩ := plainTok_unpack hv2
  obtain ⟨c0, t0, hf0⟩ : ∃ c0 t0, f1.data = c0 :: t0 := by
    cases hfd : f1.data with
    | nil => exact absurd hfd hf1ne
    | cons c t => exact ⟨c, t, rfl⟩
  have hc0a : c0.isAlphanum = true := hf1a c0 (by rw [hf0]; simp)
  have hgl : (f1.data ++ ' ' :: '=' :: ' ' :: (v1.data ++ ' ' :: 'A' :: 'N' :: 'D' :: ' ' ::
      (f2.data ++ ' ' :: '=' :: ' ' :: v2.data))).getLast? = some (v2.data.getLast hv2ne) := by
    have h1 : f1.data ++ ' ' :: '=' :: ' ' :: (v1.data ++ ' ' :: 'A' :: 'N' :: 'D' :: ' ' ::
        (f2.data ++ ' ' :: '=' :: ' ' :: v2.data)) =
        (f1.data ++ [' ', '=', ' '] ++ v1.data ++ [' ', 'A', 'N', 'D', ' '] ++ f2.data ++
          [' ', '=', ' ']) ++ v2.data := by simp
    rw [h1, List.getLast?_append, List.getLast?_eq_getLast v2.data hv2ne]
    rfl
  have hgla : (v2.data.getLast hv2ne).isAlphanum = true := hv2a _ (List.getLast_mem hv2ne)
  have htrim : trimCh (f1.data ++ ' ' :: '=' :: ' ' :: (v1.data ++ ' ' :: 'A' :: 'N' :: 'D' ::
      ' ' :: (f2.data ++ ' ' :: '=' :: ' ' :: v2.data))) =
      f1.data ++ ' ' :: '=' :: ' ' :: (v1.data ++ ' ' :: 'A' :: 'N' :: 'D' :: ' ' ::
        (f2.data ++ ' ' :: '=' :: ' ' :: v2.data)) := by
    apply trimCh_of_ends (c := c0) (d := v2.data.getLast hv2ne)
    · rw [hf0]; rfl
    · exact alnum_not_ws hc0a
    · exact hgl
    · exact alnum_not_ws hgla
  have hAND : mongoShell.repAND (f1.data ++ ' ' :: ':' :: ' ' ::
      (v1.data ++ ' ' :: 'A' :: 'N' :: 'D' :: ' ' :: (f2.data ++ ' ' :: ':' :: ' ' :: v2.data))) =
      f1.data ++ ' ' :: ':' :: ' ' ::
        (v1.data ++ ' ' :: ',' :: ' ' :: (f2.data ++ ' ' :: ':' :: ' ' :: v2.data)) := by
    have h1 : f1.data ++ ' ' :: ':' :: ' ' ::
        (v1.data ++ ' ' :: 'A' :: 'N' :: 'D' :: ' ' :: (f2.data ++ ' ' :: ':' :: ' ' :: v2.data)) =
        (f1.data ++ ' ' :: ':' :: ' ' :: (v1.data ++ [' '])) ++
          'A' :: 'N' :: 'D' :: (' ' :: (f2.data ++ ' ' :: ':' :: ' ' :: v2.data)) := by simp
    rw [h1, repAND_append_one (andAt_seg2_left hf1AND hv1AND),
      repAND_eq_self (andAt_seg2_right hf2AND hv2AND)]
    simp
  have hrep : mongoShell.repQuote (mongoShell.repAND (mongoShell.repEq
      (f1.data ++ ' ' :: '=' :: ' ' :: (v1.data ++ ' ' :: 'A' :: 'N' :: 'D' :: ' ' ::
        (f2.data ++ ' ' :: '=' :: ' ' :: v2.data))))) =
      f1.data ++ ' ' :: ':' :: ' ' ::
        (v1.data ++ ' ' :: ',' :: ' ' :: (f2.data ++ ' ' :: ':' :: ' ' :: v2.data)) := by
    rw [repEq_seg2 hf1a hv1a hf2a hv2a, hAND, repQuote_seg2 hf1a hv1a hf2a hv2a]
  have hseg : f1.data ++ ' ' :: '=' :: ' ' :: (v1.data ++ ' ' :: 'A' :: 'N' :: 'D' :: ' ' ::
      (f2.data ++ ' ' :: '=' :: ' ' :: v2.data)) =
      c0 :: (t0 ++ ' ' :: '=' :: ' ' :: (v1.data ++ ' ' :: 'A' :: 'N' :: 'D' :: ' ' ::
        (f2.data ++ ' ' :: '=' :: ' ' :: v2.data))) := by rw [hf0]; rfl
  have hsegQ : f1.data ++ ' ' :: ':' :: ' ' ::
      (v1.data ++ ' ' :: ',' :: ' ' :: (f2.data ++ ' ' :: ':' :: ' ' :: v2.data)) =
      c0 :: (t0 ++ ' ' :: ':' :: ' ' ::
        (v1.data ++ ' ' :: ',' :: ' ' :: (f2.data ++ ' ' :: ':' :: ' ' :: v2.data))) := by
    rw [hf0]; rfl
  exact extractWhere_out hp hseg (alnum_not_ws hc0a)
    (whereTerm_seg2 hf1a hv1ne hv1a hv1G hv1O hv1L hf2ne hf2a hf2G hf2O hf2L
      hv2ne hv2a hv2G hv2O hv2L) htrim hrep hsegQ
    (fun he => by rw [he] at hc0a; exact absurd hc0a (by decide))


/-- C6 (amended): for plain alphanumeric tokens (no embedded case-insensitive
AND and not starting with a terminator keyword), an `=` atom after WHERE
translates to the direct field-equality document `\x7b f : v \x7d`, and two
AND-joined `=` atoms merge into the single comma-joined conjunctive document
`\x7b f1 : v1 , f2 : v2 \x7d`; the prefix before WHERE may be any text free
of the letter w.  Comparison operators and OR are not mapped (see the
counterexample). -/
theorem where_translation_amended (p f v f1 v1 f2 v2 : String)
    (hp : ∀ c ∈ p.data, ('W' == upChar c) = false)
    (hf : plainTok f = true) (hv : plainTok v = true)
    (hf1 : plainTok f1 = true) (hv1 : plainTok v1 = true)
    (hf2 : plainTok f2 = true) (hv2 : plainTok v2 = true) :
    mongoShell.extractWhereConditions (p ++ "WHERE " ++ f ++ " = " ++ v) =
      "\x7b " ++ f ++ " : " ++ v ++ " \x7d" ∧
    mongoShell.extractWhereConditions
        (p ++ "WHERE " ++ f1 ++ " = " ++ v1 ++ " AND " ++ f2 ++ " = " ++ v2) =
      "\x7b " ++ f1 ++ " : " ++ v1 ++ " , " ++ f2 ++ " : " ++ v2 ++ " \x7d" := by
  constructor
  · have hq : p ++ "WHERE " ++ f ++ " = " ++ v =
        (⟨p.data ++ 'W' :: 'H' :: 'E' :: 'R' :: 'E' :: ' ' ::
          (f.data ++ ' ' :: '=' :: ' ' :: v.data)⟩ : String) := by
      apply String.ext
      simp [sdata_append]
    rw [hq, extractWhere_atom hp hf hv]
    apply String.ext
    simp [sdata_append]
  · have hq : p ++ "WHERE " ++ f1 ++ " = " ++ v1 ++ " AND " ++ f2 ++ " = " ++ v2 =
        (⟨p.data ++ 'W' :: 'H' :: 'E' :: 'R' :: 'E' :: ' ' ::
          (f1.data ++ ' ' :: '=' :: ' ' :: (v1.data ++ ' ' :: 'A' :: 'N' :: 'D' :: ' ' ::
            (f2.data ++ ' ' :: '=' :: ' ' :: v2.data)))⟩ : String) := by
      apply String.ext
      simp [sdata_append]
    rw [hq, extractWhere_and hp hf1 hv1 hf2 hv2]
    apply String.ext
    simp [sdata_append]

/-- C6 witness: the amended theorem at concrete tokens. -/
theorem where_translation_amended_witness :
    (∀ c ∈ ("SELECT * FROM t ").data, ('W' == upChar c) = false) ∧
    plainTok "status" = true ∧ plainTok "5" = true ∧
    mongoShell.extractWhereConditions
        ("SELECT * FROM t " ++ "WHERE " ++ "status" ++ " = " ++ "5") =
      "\x7b " ++ "status" ++ " : " ++ "5" ++ " \x7d" ∧
    mongoShell.extractWhereConditions
        ("SELECT * FROM t " ++ "WHERE " ++ "a" ++ " = " ++ "1" ++ " AND " ++
          "b" ++ " = " ++ "2") =
      "\x7b " ++ "a" ++ " : " ++ "1" ++ " , " ++ "b" ++ " : " ++ "2" ++ " \x7d" := by
  refine ⟨by decide, by decide, by decide, ?_, ?_⟩
  · exact (where_translation_amended "SELECT * FROM t " "status" "5" "a" "1" "b" "2"
      (by decide) (by decide) (by decide) (by decide) (by decide) (by decide) (by decide)).1
  · exact (where_translation_amended "SELECT * FROM t " "a" "1" "a" "1" "b" "2"
      (by decide) (by decide) (by decide) (by decide) (by decide) (by decide) (by decide)).2

/-- C6 counterexample: the WHERE translation is character rewriting only:
`age >= 18` becomes `age >: 18` — the comparison operator `>=` is not mapped
to `$gte` (the `=` inside it is blindly turned into `:`), and
`a = 1 OR b = 2` becomes `\x7b a : 1 OR b : 2 \x7d` — the OR connective is
passed through verbatim inside a single filter document with no `$or`
structure. -/
theorem where_ops_not_mapped_cx :
    mongoShell.extractWhereConditions "SELECT * FROM t WHERE age >= 18" =
      "\x7b age >: 18 \x7d" ∧
    includes (mongoShell.extractWhereConditions "SELECT * FROM t WHERE age >= 18")
      "$gte" = false ∧
    mongoShell.extractWhereConditions "SELECT * FROM t WHERE a = 1 OR b = 2" =
      "\x7b a : 1 OR b : 2 \x7d" ∧
    includes (mongoShell.extractWhereConditions "SELECT * FROM t WHERE a = 1 OR b = 2")
      "$or" = false ∧
    includes (mongoShell.extractWhereConditions "SELECT * FROM t WHERE a = 1 OR b = 2")
      "OR" = true := by
  decide


end SqlNoSql
